import Mathlib

/-! Verification of batman-sim-go: the routing table and the token-bucket link model.

A shallow embedding of `main.go`.

Modelling conventions

* Go's `int` is the 64-bit two's-complement integer: values are carried as
  mathematical integers (`Int`) and every arithmetic operation of the source
  is followed by `wrapInt`, the reduction into `[minInt, maxInt]`.
* A Go `map[string]*T` is a function `String → Option T`; `none` stands for
  an absent key (or a nil pointer, which the source does not tell apart).
  Distinct keys hold distinct objects, as is the case for every entry the
  code itself creates (`UpdateOriginator` stores the address of a fresh
  local), and the maps are initialised.
* Pointer receivers become state passing: a method returns its result
  together with the updated receiver.
* A Go `error` is an `Option String`: `none` is `nil`, `some msg` is
  `errors.New(msg)`.
* A run-time panic (integer division by zero, nil dereference) is the outer
  `none` of an `Option` result.
* `node.Network` (the embedded `*Network`) is passed as an explicit argument.
-/

namespace BatmanSim

/-! ## Go integers -/

/-- The smallest value of Go's 64-bit `int`. -/
def minInt : Int := -9223372036854775808

/-- The largest value of Go's 64-bit `int`. -/
def maxInt : Int := 9223372036854775807

/-- Two's-complement reduction of a mathematical integer to a 64-bit `int`. -/
def wrapInt (x : Int) : Int :=
  (x + 9223372036854775808) % 18446744073709551616 - 9223372036854775808

/-- The value is representable as a Go `int`. -/
def IsInt (x : Int) : Prop := minInt ≤ x ∧ x ≤ maxInt

instance (x : Int) : Decidable (IsInt x) := by
  unfold IsInt; exact inferInstance

/-- Go's `a + b` on `int`. -/
def addInt (a b : Int) : Int := wrapInt (a + b)

/-- Go's `a - b` on `int`. -/
def subInt (a b : Int) : Int := wrapInt (a - b)

/-- Go's `a * b` on `int`. -/
def mulInt (a b : Int) : Int := wrapInt (a * b)

/-- Go's `a / b` on `int` for `b ≠ 0`: the quotient truncated toward zero
(`minInt / -1` wraps to `minInt`). -/
def quoInt (a b : Int) : Int := wrapInt (Int.tdiv a b)

/-! ## Constants (`main.go` lines 9-12) -/

/-- The constant `timeMultiplier = 1000`. -/
def timeMultiplier : Int := 1000

/-- The constant `hopPenalty = 15 / 255`: a constant expression over two untyped
integer constants, hence an integer division. -/
def hopPenalty : Int := Int.tdiv 15 255

/-! ## Data model (`main.go` lines 14-58) -/

/-- The struct `Neighbor`. -/
structure Neighbor where
  Address : String
  Throughput : Int
deriving DecidableEq, Repr

/-- The anonymous struct type of `Originator.NextHop`. -/
structure NextHop where
  Address : String
  Throughput : Int
deriving DecidableEq, Repr

/-- The struct `Originator`. -/
structure Originator where
  Address : String
  NextHop : NextHop
  OgmSequence : Int
deriving DecidableEq, Repr

/-- The struct `Edge`. -/
structure Edge where
  Throughput : Int
  Bucket : Int
deriving DecidableEq, Repr

/-- The struct `OGM`. -/
structure OGM where
  Sequence : Int
  OriginatorAddress : String
  SenderAddress : String
  Throughput : Int
  Timestamp : Int
deriving DecidableEq, Repr

/-- The struct `Packet`; the field `Type` is spelled `Type_`, and a byte of
`Payload` is a natural number. -/
structure Packet where
  Type_ : String
  Payload : List Nat
deriving DecidableEq, Repr

/-- The struct `Node`, without the embedded `*Network`; `PacketChannel` is the
list of packets waiting in the channel, oldest first. -/
structure Node where
  Address : String
  Originators : String → Option Originator
  Neighbors : String → Option Neighbor
  OgmSequence : Int
  PacketChannel : List Packet

/-- The struct `Network`. -/
structure Network where
  Nodes : String → Option Node
  Edges : String → Option Edge

/-- The map assignment `m[k] = &v`. -/
def mapSet {α : Type} (m : String → Option α) (k : String) (v : α) :
    String → Option α :=
  fun x => if x = k then some v else m x

/-- The map without any key. -/
def emptyMap {α : Type} : String → Option α := fun _ => none

/-! ## Edge operations (`main.go` lines 67-81) -/

/-- The method `(edge *Edge) SendBits(num int) bool`: the returned pair is the
result and the edge afterwards. -/
def Edge.SendBits (edge : Edge) (num : Int) : Bool × Edge :=
  let newBucket := addInt edge.Bucket num
  if newBucket > edge.Throughput then
    (false, { edge with Bucket := edge.Throughput })
  else
    (true, { edge with Bucket := newBucket })

/-- The method `(edge *Edge) Tick(ticksPerSecond int)`: the edge afterwards, or
`none` when the division panics (`ticksPerSecond = 0` with a positive bucket). -/
def Edge.Tick (edge : Edge) (ticksPerSecond : Int) : Option Edge :=
  if edge.Bucket > 0 then
    if ticksPerSecond = 0 then none
    else some { edge with
      Bucket := subInt edge.Bucket (quoInt edge.Throughput ticksPerSecond) }
  else some edge

/-! ## OGM handling (`main.go` lines 141-187) -/

/-- The method `(node *Node) AdjustOGM(ogm OGM) (*OGM, error)`: `.error msg` is
the return `nil, errors.New(msg)`, `.ok o` the return `&o, nil`. -/
def Node.AdjustOGM (node : Node) (ogm : OGM) : Except String OGM :=
  match node.Neighbors ogm.SenderAddress with
  | none => .error "OGM not sent from neighbor"
  | some neighbor =>
    let ogm1 : OGM :=
      if ogm.OriginatorAddress = ogm.SenderAddress then
        { ogm with Throughput := neighbor.Throughput }
      else if neighbor.Throughput < ogm.Throughput then
        { ogm with Throughput := neighbor.Throughput }
      else ogm
    .ok { ogm1 with
      Throughput := subInt ogm1.Throughput (mulInt ogm1.Throughput hopPenalty) }

/-- The method `(node *Node) UpdateOriginator(ogm OGM) error`: the returned pair
is the error and the node afterwards. -/
def Node.UpdateOriginator (node : Node) (ogm : OGM) : Option String × Node :=
  match node.Originators ogm.OriginatorAddress with
  | none =>
    let originator : Originator :=
      { OgmSequence := ogm.Sequence
        Address := ogm.OriginatorAddress
        NextHop := { Address := ogm.SenderAddress, Throughput := ogm.Throughput } }
    (none, { node with
      Originators := mapSet node.Originators ogm.OriginatorAddress originator })
  | some originator =>
    if ogm.Sequence > originator.OgmSequence then
      if originator.NextHop.Throughput < ogm.Throughput then
        (none, { node with
          Originators := mapSet node.Originators ogm.OriginatorAddress
            { originator with
              NextHop := { Address := ogm.SenderAddress, Throughput := ogm.Throughput } } })
      else
        (none, node)
    else
      (some "ogm sequence too low", node)

/-! ## Packet delivery (`main.go` lines 83-99) -/

/-- Modelled from the spec: `ReceivePacket`, which `SendPacket` calls on the
destination, is not defined in `main.go`; by the spec an admitted packet is
enqueued on the destination's inbound queue. -/
def Node.ReceivePacket (node : Node) (packet : Packet) : Node :=
  { node with PacketChannel := node.PacketChannel ++ [packet] }

/-- The method `(node *Node) SendPacket(destAddress, packetType, payload) error`
with `net` for `node.Network`: the returned pair is the error and the network
afterwards. The second test of the source repeats `dest == nil`, which is false
at that point, so a missing edge reaches `edge.SendBits` as a nil pointer and
the call panics (`none`). -/
def Node.SendPacket (net : Network) (node : Node) (destAddress packetType : String)
    (payload : List Nat) : Option (Option String × Network) :=
  match net.Nodes destAddress with
  | none => some (some "destination not found", net)
  | some dest =>
    match net.Edges (node.Address ++ "->" ++ dest.Address) with
    | none => none
    | some edge =>
      let sent := edge.SendBits payload.length
      let net1 : Network :=
        { net with
          Edges := mapSet net.Edges (node.Address ++ "->" ++ dest.Address) sent.2 }
      if sent.1 then
        some (none, { net1 with
          Nodes := mapSet net1.Nodes destAddress
            (dest.ReceivePacket { Type_ := packetType, Payload := payload }) })
      else
        some (none, net1)

/-! ## Drivers used to state properties of call sequences -/

/-- Successive `SendBits` calls on one edge, one per request: the results in
call order and the edge afterwards. -/
def Edge.SendBitsSeq (edge : Edge) : List Int → List Bool × Edge
  | [] => ([], edge)
  | num :: rest =>
    let first := edge.SendBits num
    let later := Edge.SendBitsSeq first.2 rest
    (first.1 :: later.1, later.2)

/-- The edge invariant of the data model: `0 ≤ Bucket ≤ Throughput`. -/
def Edge.Inv (edge : Edge) : Prop := 0 ≤ edge.Bucket ∧ edge.Bucket ≤ edge.Throughput

instance (edge : Edge) : Decidable edge.Inv := by
  unfold Edge.Inv; exact inferInstance

/-! ## Concrete states used as test inputs -/

/-- A route to `A` through `B` with metric 50, accepted at sequence 1. -/
def routeA : Originator :=
  { Address := "A", NextHop := { Address := "B", Throughput := 50 }, OgmSequence := 1 }

/-- A node `N` that knows the route `routeA` and has the neighbor `A` with
link throughput 100. -/
def nodeN : Node :=
  { Address := "N"
    Originators := mapSet emptyMap "A" routeA
    Neighbors := mapSet emptyMap "A" { Address := "A", Throughput := 100 }
    OgmSequence := 0
    PacketChannel := [] }

/-- A node `M` with the neighbor `A` and an empty route table. -/
def nodeM : Node :=
  { Address := "M"
    Originators := emptyMap
    Neighbors := mapSet emptyMap "A" { Address := "A", Throughput := 100 }
    OgmSequence := 0
    PacketChannel := [] }

/-- An OGM of `A` at sequence 2, heard from `C` with metric 10 (below 50). -/
def ogmLow : OGM :=
  { Sequence := 2, OriginatorAddress := "A", SenderAddress := "C", Throughput := 10
    Timestamp := 0 }

/-- An OGM of `A` at sequence 2, heard from `C` with metric 70 (above 50). -/
def ogmHigh : OGM :=
  { Sequence := 2, OriginatorAddress := "A", SenderAddress := "C", Throughput := 70
    Timestamp := 0 }

/-- An OGM of `A` at sequence 2, heard from `C` with metric 50 (a tie). -/
def ogmTie : OGM :=
  { Sequence := 2, OriginatorAddress := "A", SenderAddress := "C", Throughput := 50
    Timestamp := 0 }

/-- An OGM of `A` at sequence 1, the sequence `routeA` already holds. -/
def ogmStale : OGM :=
  { Sequence := 1, OriginatorAddress := "A", SenderAddress := "C", Throughput := 90
    Timestamp := 0 }

/-- An OGM sent by its own originator `A`, carrying metric 0. -/
def ogmFirstHop : OGM :=
  { Sequence := 1, OriginatorAddress := "A", SenderAddress := "A", Throughput := 0
    Timestamp := 0 }

/-- An edge of capacity 10 with 3 units consumed. -/
def edgeSmall : Edge := { Throughput := 10, Bucket := 3 }

/-- An edge of capacity 100 with 1 unit consumed. -/
def edgeAlmostEmpty : Edge := { Throughput := 100, Bucket := 1 }

/-- An empty edge of capacity 10. -/
def edgeFresh : Edge := { Throughput := 10, Bucket := 0 }

/-- A network with the nodes `N` and `M` and the edge from `N` to `M`. -/
def netNM : Network :=
  { Nodes := mapSet (mapSet emptyMap "N" nodeN) "M" nodeM
    Edges := mapSet emptyMap "N->M" edgeSmall }

/-- An OGM of a so far unknown originator `Z`, carrying a negative metric. -/
def ogmNegative : OGM :=
  { Sequence := -4, OriginatorAddress := "Z", SenderAddress := "A", Throughput := -7
    Timestamp := 0 }

/-! ## Flooding (`main.go` lines 116-139 and 189-202)

The library calls `json.Marshal` and `json.Unmarshal` are not part of the
program. `json.Marshal` is a parameter `marshal`; `json.Unmarshal` is called by
`HandleOGM` with the target passed by value, for which the library returns an
error on every input: the syntax error of the payload if it has one (parameter
`syntaxError`), and the invalid-target error otherwise.

The receiver of `HandleOGM` and `RebroadcastOGM` is passed next to the registry
`net`; the registry's copy of a node is read for its `Address` and written for
its `PacketChannel` only. -/

/-- The arguments of one call of `SendPacket`. -/
structure SendCall where
  DestAddress : String
  PacketType : String
  Payload : List Nat
deriving DecidableEq, Repr

/-- The loop `for _, neighbor := range node.Neighbors` of `RebroadcastOGM`, where
`keys` lists the keys of `node.Neighbors` in the order in which `range` visits
them. The result is the error returned, the network afterwards and the
`SendPacket` calls made, oldest first; it is `none` when a call panics or an
entry is a nil pointer. -/
def Node.sendToNeighbors (node : Node) (payload : List Nat) :
    Network → List String → Option (Option String × Network × List SendCall)
  | net, [] => some (none, net, [])
  | net, key :: rest =>
    match node.Neighbors key with
    | none => none
    | some neighbor =>
      match node.SendPacket net neighbor.Address "OGM" payload with
      | none => none
      | some (some err, net1) =>
        some (some err, net1,
          [{ DestAddress := neighbor.Address, PacketType := "OGM", Payload := payload }])
      | some (none, net1) =>
        match Node.sendToNeighbors node payload net1 rest with
        | none => none
        | some (err, net2, calls) =>
          some (err, net2,
            { DestAddress := neighbor.Address, PacketType := "OGM", Payload := payload }
              :: calls)

/-- The method `(node *Node) RebroadcastOGM(ogm OGM) error`, with `net` for
`node.Network` and `keys` for the visiting order of `range node.Neighbors`. -/
def Node.RebroadcastOGM (marshal : OGM → Except String (List Nat)) (net : Network)
    (node : Node) (ogm : OGM) (keys : List String) :
    Option (Option String × Network × List SendCall) :=
  let ogm1 : OGM := { ogm with SenderAddress := node.Address }
  match marshal ogm1 with
  | .error err => some (some err, net, [])
  | .ok payload => node.sendToNeighbors payload net keys

/-- The zero value `OGM{}`. -/
def zeroOGM : OGM :=
  { Sequence := 0, OriginatorAddress := "", SenderAddress := "", Throughput := 0
    Timestamp := 0 }

/-- The call `json.Unmarshal(payload, ogm)` of `HandleOGM`: the target `ogm` is a
struct value, not a pointer, so the library leaves it unwritten and returns an
error for every payload. -/
def unmarshalIntoValue (syntaxError : List Nat → Option String) (payload : List Nat) :
    Option String :=
  match syntaxError payload with
  | some msg => some msg
  | none => some "json: Unmarshal(non-pointer main.OGM)"

/-- The method `(node *Node) HandleOGM(payload []byte) error`: the result is the
error returned, the node and the network afterwards, and the `SendPacket` calls
made. The value returned by `RebroadcastOGM` is discarded, as in the source. -/
def Node.HandleOGM (syntaxError : List Nat → Option String)
    (marshal : OGM → Except String (List Nat)) (net : Network) (node : Node)
    (keys : List String) (payload : List Nat) :
    Option (Option String × Node × Network × List SendCall) :=
  let ogm : OGM := zeroOGM
  match unmarshalIntoValue syntaxError payload with
  | some err => some (some err, node, net, [])
  | none =>
    if ogm.OriginatorAddress = node.Address then some (none, node, net, [])
    else
      match node.AdjustOGM ogm with
      | .error err => some (some err, node, net, [])
      | .ok adjustedOGM =>
        match node.UpdateOriginator adjustedOGM with
        | (some err, node1) => some (some err, node1, net, [])
        | (none, node1) =>
          match node1.RebroadcastOGM marshal net adjustedOGM keys with
          | none => none
          | some (_, net1, calls) => some (none, node1, net1, calls)

/-! ## Further notions used to state properties -/

/-- The `SendPacket` calls that address every entry of `keys` once, in order. -/
def Node.callsFor (node : Node) (payload : List Nat) (keys : List String) :
    List SendCall :=
  keys.filterMap fun key =>
    (node.Neighbors key).map fun neighbor =>
      { DestAddress := neighbor.Address, PacketType := "OGM", Payload := payload }

/-- The neighbor stored under `key` is registered in the network and the edge
from the node to it is registered. -/
def Node.Reaches (node : Node) (net : Network) (key : String) : Prop :=
  ∃ neighbor dest edge, node.Neighbors key = some neighbor ∧
    net.Nodes neighbor.Address = some dest ∧
    net.Edges (node.Address ++ "->" ++ dest.Address) = some edge

/-- Two registries hold the same node addresses and the same edge keys. -/
def Network.SameShape (net net1 : Network) : Prop :=
  (∀ k, (net1.Nodes k).map Node.Address = (net.Nodes k).map Node.Address) ∧
  (∀ k, (net1.Edges k).isSome = (net.Edges k).isSome)

/-! ## A serializer for concrete runs -/

/-- The ASCII codes of the characters of a string. -/
def asciiText (s : String) : List Nat := s.toList.map Char.toNat

/-- A string between double quotes. -/
def asciiQuoted (s : String) : List Nat := 34 :: (asciiText s ++ [34])

/-- The decimal notation of an integer. -/
def asciiInt (x : Int) : List Nat :=
  if x < 0 then 45 :: asciiText (toString x.natAbs) else asciiText (toString x.natAbs)

/-- The output of `json.Marshal` for an `OGM` whose addresses consist of ASCII
characters that JSON does not escape: the object of the five exported fields in
declaration order. -/
def marshalPlain (ogm : OGM) : Except String (List Nat) :=
  .ok ([123] ++ asciiQuoted "Sequence" ++ [58] ++ asciiInt ogm.Sequence ++ [44]
    ++ asciiQuoted "OriginatorAddress" ++ [58] ++ asciiQuoted ogm.OriginatorAddress ++ [44]
    ++ asciiQuoted "SenderAddress" ++ [58] ++ asciiQuoted ogm.SenderAddress ++ [44]
    ++ asciiQuoted "Throughput" ++ [58] ++ asciiInt ogm.Throughput ++ [44]
    ++ asciiQuoted "Timestamp" ++ [58] ++ asciiInt ogm.Timestamp ++ [125])

/-- The payload that `marshalPlain` produces, empty on error. -/
def payloadOf (ogm : OGM) : List Nat :=
  match marshalPlain ogm with
  | .ok payload => payload
  | .error _ => []

/-- A syntax check that accepts every payload. -/
def noSyntaxError : List Nat → Option String := fun _ => none

/-! ## The line topology A - B - C -/

/-- The node `A`, with the neighbor `B` over a link of throughput 100. -/
def nodeA : Node :=
  { Address := "A"
    Originators := emptyMap
    Neighbors := mapSet emptyMap "B" { Address := "B", Throughput := 100 }
    OgmSequence := 1
    PacketChannel := [] }

/-- The node `B`, with the neighbors `A` (throughput 100) and `C` (throughput 80)
and an empty route table. -/
def nodeB : Node :=
  { Address := "B"
    Originators := emptyMap
    Neighbors := mapSet (mapSet emptyMap "A" { Address := "A", Throughput := 100 })
      "C" { Address := "C", Throughput := 80 }
    OgmSequence := 0
    PacketChannel := [] }

/-- The node `C`, with the neighbor `B` (throughput 80) and an empty route
table. -/
def nodeC : Node :=
  { Address := "C"
    Originators := emptyMap
    Neighbors := mapSet emptyMap "B" { Address := "B", Throughput := 80 }
    OgmSequence := 0
    PacketChannel := [] }

/-- An empty edge of capacity 1000. -/
def edgeWide : Edge := { Throughput := 1000, Bucket := 0 }

/-- The registry of the line: the three nodes and the four directed edges. -/
def netABC : Network :=
  { Nodes := mapSet (mapSet (mapSet emptyMap "A" nodeA) "B" nodeB) "C" nodeC
    Edges := mapSet (mapSet (mapSet (mapSet emptyMap "A->B" edgeWide) "B->A" edgeWide)
      "B->C" edgeWide) "C->B" edgeWide }

/-- The registry of the line without the node `C`: `B` still lists `C` as a
neighbor. -/
def netAB : Network :=
  { Nodes := mapSet (mapSet emptyMap "A" nodeA) "B" nodeB
    Edges := mapSet (mapSet emptyMap "A->B" edgeWide) "B->A" edgeWide }

/-- The OGM that `A` originates at sequence 1, with carried metric `carried` and
timestamp `stamp`. -/
def ogmOfA (carried stamp : Int) : OGM :=
  { Sequence := 1, OriginatorAddress := "A", SenderAddress := "A", Throughput := carried
    Timestamp := stamp }

/-- An OGM that `B` itself originated, heard back from `A`. -/
def ogmEcho : OGM :=
  { Sequence := 5, OriginatorAddress := "B", SenderAddress := "A", Throughput := 94
    Timestamp := 0 }

/-- A route whose `Address` field differs from every key used here. -/
def routeOdd : Originator :=
  { Address := "Q", NextHop := { Address := "B", Throughput := 50 }, OgmSequence := 1 }

/-! ## Notions used to state what a fan-out leaves in the network -/

/-- The network after the calls of a list have been made by `SendPacket` one after
the other, each returning no error; `none` if one of them does not. -/
def Node.replay (node : Node) : Network → List SendCall → Option Network
  | net, [] => some net
  | net, call :: rest =>
    match node.SendPacket net call.DestAddress call.PacketType call.Payload with
    | some (none, net1) => Node.replay node net1 rest
    | _ => none

/-- The neighbor stored under `key` is registered under its own address, the edge
from the node to it is registered, and that edge has room for the payload. -/
def Node.CanDeliver (node : Node) (net : Network) (payload : List Nat) (key : String) :
    Prop :=
  ∃ neighbor dest edge, node.Neighbors key = some neighbor ∧
    net.Nodes neighbor.Address = some dest ∧ dest.Address = neighbor.Address ∧
    net.Edges (node.Address ++ "->" ++ neighbor.Address) = some edge ∧
    addInt edge.Bucket payload.length ≤ edge.Throughput

/-- The neighbors stored under the keys of the list have pairwise different
addresses. -/
def Node.DistinctNeighbors (node : Node) (keys : List String) : Prop :=
  keys.Pairwise fun k k1 =>
    ∀ neighbor neighbor1, node.Neighbors k = some neighbor →
      node.Neighbors k1 = some neighbor1 → neighbor.Address ≠ neighbor1.Address

/-- A node `H` with the neighbors `A`, `X` and `C`. -/
def nodeHub : Node :=
  { Address := "H"
    Originators := emptyMap
    Neighbors := mapSet (mapSet (mapSet emptyMap "A" { Address := "A", Throughput := 100 })
      "X" { Address := "X", Throughput := 60 }) "C" { Address := "C", Throughput := 80 }
    OgmSequence := 0
    PacketChannel := [] }

/-- A registry with `A`, `C` and `H` and the edges from `H` to `A` and to `C`;
the neighbor `X` of `H` is not registered. -/
def netHub : Network :=
  { Nodes := mapSet (mapSet (mapSet emptyMap "A" nodeA) "C" nodeC) "H" nodeHub
    Edges := mapSet (mapSet emptyMap "H->A" edgeWide) "H->C" edgeWide }

/-! ## Basic facts about the integer model and the maps -/

theorem wrapInt_of_isInt {x : Int} (h : IsInt x) : wrapInt x = x := by
  unfold IsInt minInt maxInt at h
  unfold wrapInt
  omega

theorem isInt_wrapInt (x : Int) : IsInt (wrapInt x) := by
  unfold IsInt minInt maxInt wrapInt
  omega

theorem addInt_of_isInt {a b : Int} (h : IsInt (a + b)) : addInt a b = a + b :=
  wrapInt_of_isInt h

theorem hopPenalty_eq_zero : hopPenalty = 0 := by decide

theorem mapSet_same {α : Type} (m : String → Option α) (k : String) (v : α) :
    mapSet m k v k = some v := by
  simp [mapSet]

theorem mapSet_other {α : Type} (m : String → Option α) (k x : String) (v : α)
    (h : x ≠ k) : mapSet m k v x = m x := by
  simp [mapSet, h]

/-- The penalty step of `AdjustOGM` returns its input: the product with
`hopPenalty` is zero. -/
theorem penalty_step_id {t : Int} (h : IsInt t) :
    subInt t (mulInt t hopPenalty) = t := by
  have h0 : mulInt t hopPenalty = 0 := by
    rw [hopPenalty_eq_zero]
    simp [mulInt, wrapInt]
  rw [h0]
  simpa [subInt] using wrapInt_of_isInt h

/-- The branch of `UpdateOriginator` for an originator without entry. -/
theorem UpdateOriginator_of_none (node : Node) (ogm : OGM)
    (h : node.Originators ogm.OriginatorAddress = none) :
    node.UpdateOriginator ogm =
      (none, { node with
        Originators := mapSet node.Originators ogm.OriginatorAddress
          { OgmSequence := ogm.Sequence
            Address := ogm.OriginatorAddress
            NextHop := { Address := ogm.SenderAddress, Throughput := ogm.Throughput } } }) := by
  unfold Node.UpdateOriginator
  rw [h]

/-- The branch of `UpdateOriginator` for a newer OGM with a greater metric. -/
theorem UpdateOriginator_of_better (node : Node) (ogm : OGM) (e : Originator)
    (he : node.Originators ogm.OriginatorAddress = some e)
    (hseq : ogm.Sequence > e.OgmSequence)
    (hthr : e.NextHop.Throughput < ogm.Throughput) :
    node.UpdateOriginator ogm =
      (none, { node with
        Originators := mapSet node.Originators ogm.OriginatorAddress
          { e with
            NextHop := { Address := ogm.SenderAddress, Throughput := ogm.Throughput } } }) := by
  unfold Node.UpdateOriginator
  rw [he]
  simp only [hseq, hthr, if_true]

/-- The branch of `UpdateOriginator` for a newer OGM without a greater metric. -/
theorem UpdateOriginator_of_not_better (node : Node) (ogm : OGM) (e : Originator)
    (he : node.Originators ogm.OriginatorAddress = some e)
    (hseq : ogm.Sequence > e.OgmSequence)
    (hthr : ¬ e.NextHop.Throughput < ogm.Throughput) :
    node.UpdateOriginator ogm = (none, node) := by
  unfold Node.UpdateOriginator
  rw [he]
  simp only [hseq, hthr, if_true, if_false]

/-- The branch of `UpdateOriginator` for an OGM that is not newer. -/
theorem UpdateOriginator_of_stale (node : Node) (ogm : OGM) (e : Originator)
    (he : node.Originators ogm.OriginatorAddress = some e)
    (hseq : ¬ ogm.Sequence > e.OgmSequence) :
    node.UpdateOriginator ogm = (some "ogm sequence too low", node) := by
  unfold Node.UpdateOriginator
  rw [he]
  simp only [hseq, if_false]

/-- No branch of `UpdateOriginator` writes the field `OgmSequence` of an entry
that already exists. -/
theorem UpdateOriginator_keeps_sequence (node : Node) (ogm : OGM) (e : Originator)
    (he : node.Originators ogm.OriginatorAddress = some e) :
    ((node.UpdateOriginator ogm).2.Originators ogm.OriginatorAddress).map
      Originator.OgmSequence = some e.OgmSequence := by
  unfold Node.UpdateOriginator
  rw [he]
  by_cases hseq : ogm.Sequence > e.OgmSequence
  · by_cases hthr : e.NextHop.Throughput < ogm.Throughput
    · simp [hseq, hthr, mapSet]
    · simp [hseq, hthr, he]
  · simp [hseq, he]

/-- A replay right after the first OGM of an unknown originator is rejected and
changes nothing. -/
theorem UpdateOriginator_replay_of_first (node : Node) (ogm : OGM)
    (h : node.Originators ogm.OriginatorAddress = none) :
    (node.UpdateOriginator ogm).2.UpdateOriginator ogm =
      (some "ogm sequence too low", (node.UpdateOriginator ogm).2) := by
  have h1 : (node.UpdateOriginator ogm).2.Originators ogm.OriginatorAddress =
      some { OgmSequence := ogm.Sequence, Address := ogm.OriginatorAddress,
             NextHop := { Address := ogm.SenderAddress, Throughput := ogm.Throughput } } := by
    unfold Node.UpdateOriginator
    rw [h]
    simp [mapSet]
  generalize (node.UpdateOriginator ogm).2 = node1 at h1
  unfold Node.UpdateOriginator
  rw [h1]
  simp

/-- The call `SendBits` keeps `0 ≤ Bucket ≤ Throughput` for a non-negative request
whose sum with the bucket is representable. -/
theorem SendBits_preserves_inv (edge : Edge) (num : Int) (hinv : edge.Inv)
    (hnum : 0 ≤ num) (hsum : IsInt (edge.Bucket + num)) :
    (edge.SendBits num).2.Inv := by
  unfold Edge.Inv at hinv
  unfold Edge.SendBits
  rw [addInt_of_isInt hsum]
  by_cases h : edge.Bucket + num > edge.Throughput
  · simp only [h, if_true, Edge.Inv]
    omega
  · simp only [h, if_false, Edge.Inv]
    omega

/-- Requests that fit into the remaining capacity are all admitted and add up in
the bucket. -/
theorem SendBitsSeq_admits (reqs : List Int) :
    ∀ edge : Edge, 0 ≤ edge.Bucket → IsInt edge.Throughput →
      (∀ n ∈ reqs, 0 ≤ n) → edge.Bucket + reqs.sum ≤ edge.Throughput →
      (edge.SendBitsSeq reqs).1 = List.replicate reqs.length true ∧
      (edge.SendBitsSeq reqs).2 = { edge with Bucket := edge.Bucket + reqs.sum } := by
  induction reqs with
  | nil =>
    intro edge _ _ _ _
    simp [Edge.SendBitsSeq]
  | cons n rest ih =>
    intro edge hb ht hpos hsum
    have hn : 0 ≤ n := hpos n (List.mem_cons_self n rest)
    have hrest : ∀ m ∈ rest, 0 ≤ m := fun m hm => hpos m (List.mem_cons_of_mem n hm)
    have hrs : 0 ≤ rest.sum := List.sum_nonneg hrest
    rw [List.sum_cons] at hsum
    have hrep : IsInt (edge.Bucket + n) := by
      unfold IsInt minInt maxInt at *
      omega
    have hstep : edge.SendBits n = (true, { edge with Bucket := edge.Bucket + n }) := by
      unfold Edge.SendBits
      rw [addInt_of_isInt hrep]
      have : ¬ edge.Bucket + n > edge.Throughput := by omega
      simp [this]
    have hih := ih { edge with Bucket := edge.Bucket + n } (by simp; omega) ht hrest
      (by simp; omega)
    unfold Edge.SendBitsSeq
    rw [hstep]
    refine ⟨?_, ?_⟩
    · simp [hih.1, List.replicate_succ]
    · simp [hih.2, List.sum_cons, add_assoc]

/-- The admitting branch of `SendBits`. -/
theorem SendBits_of_fits (edge : Edge) (num : Int)
    (h : addInt edge.Bucket num ≤ edge.Throughput) :
    edge.SendBits num = (true, { edge with Bucket := addInt edge.Bucket num }) := by
  unfold Edge.SendBits
  simp only [gt_iff_lt, not_lt.mpr h, if_false]

/-- The rejecting branch of `SendBits`. -/
theorem SendBits_of_exceeds (edge : Edge) (num : Int)
    (h : edge.Throughput < addInt edge.Bucket num) :
    edge.SendBits num = (false, { edge with Bucket := edge.Throughput }) := by
  unfold Edge.SendBits
  simp only [gt_iff_lt, h, if_true]

/-- The run of `SendPacket` when both lookups succeed and the edge admits the
payload. -/
theorem SendPacket_of_admitted (net : Network) (node dest : Node) (edge : Edge)
    (destAddress packetType : String) (payload : List Nat)
    (hd : net.Nodes destAddress = some dest)
    (he : net.Edges (node.Address ++ "->" ++ dest.Address) = some edge)
    (h : addInt edge.Bucket payload.length ≤ edge.Throughput) :
    node.SendPacket net destAddress packetType payload =
      some (none,
        { Nodes := mapSet net.Nodes destAddress
            (dest.ReceivePacket { Type_ := packetType, Payload := payload })
          Edges := mapSet net.Edges (node.Address ++ "->" ++ dest.Address)
            { edge with Bucket := addInt edge.Bucket payload.length } }) := by
  unfold Node.SendPacket
  rw [hd]
  simp only []
  rw [he]
  simp only [SendBits_of_fits edge payload.length h, if_true]

/-- The run of `SendPacket` when both lookups succeed and the edge rejects the
payload. -/
theorem SendPacket_of_rejected (net : Network) (node dest : Node) (edge : Edge)
    (destAddress packetType : String) (payload : List Nat)
    (hd : net.Nodes destAddress = some dest)
    (he : net.Edges (node.Address ++ "->" ++ dest.Address) = some edge)
    (h : edge.Throughput < addInt edge.Bucket payload.length) :
    node.SendPacket net destAddress packetType payload =
      some (none,
        { net with
          Edges := mapSet net.Edges (node.Address ++ "->" ++ dest.Address)
            { edge with Bucket := edge.Throughput } }) := by
  unfold Node.SendPacket
  rw [hd]
  simp only []
  rw [he]
  simp only [SendBits_of_exceeds edge payload.length h, Bool.false_eq_true, if_false]

/-- When the bucket holds at least one tick's worth, `Tick` subtracts exactly
`Throughput / ticksPerSecond`, which is the clamped difference. -/
theorem Tick_of_enough (edge : Edge) (k : Int) (hinv : edge.Inv)
    (ht : IsInt edge.Throughput) (hk : 0 < k)
    (hge : Int.tdiv edge.Throughput k ≤ edge.Bucket) :
    edge.Tick k =
      some { edge with Bucket := max 0 (edge.Bucket - Int.tdiv edge.Throughput k) } := by
  unfold Edge.Inv at hinv
  have hq0 : 0 ≤ Int.tdiv edge.Throughput k :=
    Int.tdiv_nonneg (le_trans hinv.1 hinv.2) (le_of_lt hk)
  have hmax : max 0 (edge.Bucket - Int.tdiv edge.Throughput k)
      = edge.Bucket - Int.tdiv edge.Throughput k := max_eq_right (by omega)
  unfold Edge.Tick
  by_cases hb : edge.Bucket > 0
  · have hk0 : k ≠ 0 := by omega
    have hq : quoInt edge.Throughput k = Int.tdiv edge.Throughput k := by
      unfold quoInt
      apply wrapInt_of_isInt
      unfold IsInt minInt maxInt at *
      omega
    have hs : subInt edge.Bucket (Int.tdiv edge.Throughput k)
        = edge.Bucket - Int.tdiv edge.Throughput k := by
      unfold subInt
      apply wrapInt_of_isInt
      unfold IsInt minInt maxInt at *
      omega
    simp only [hb, hk0, if_true, if_false, hq, hs, hmax]
  · have hb0 : edge.Bucket = 0 := by omega
    have hq1 : Int.tdiv edge.Throughput k = 0 := by omega
    simp only [hb, if_false, hmax, hq1, hb0]
    cases edge
    simp_all

/-! ## The route table: `UpdateOriginator` -/

/-- C1, evaluated on the code. The node `nodeN` holds a route to `A` accepted at
sequence 1. An OGM of `A` with sequence 2 is accepted without error, both with a
lower metric (next hop kept) and with a higher metric (next hop replaced), and in
both cases the stored sequence is still 1 afterwards, not the OGM's sequence 2. -/
theorem C1_stored_sequence_not_advanced :
    nodeN.Originators "A" = some routeA ∧
    routeA.OgmSequence < ogmLow.Sequence ∧
    (nodeN.UpdateOriginator ogmLow).1 = none ∧
    (nodeN.UpdateOriginator ogmLow).2.Originators "A" = some routeA ∧
    ((nodeN.UpdateOriginator ogmLow).2.Originators "A").map Originator.OgmSequence
      ≠ some ogmLow.Sequence ∧
    (nodeN.UpdateOriginator ogmHigh).1 = none ∧
    (nodeN.UpdateOriginator ogmHigh).2.Originators "A" =
      some { Address := "A", NextHop := { Address := "C", Throughput := 70 },
             OgmSequence := 1 } := by
  decide

/-- C2, evaluated on the code. The constant `hopPenalty` is 0, and for the
neighbor `A` of link throughput 100 and an OGM of `A` sent by `A` itself carrying
metric 0, `AdjustOGM` returns the metric 100: nothing is deducted. -/
theorem C2_hop_penalty_is_zero :
    hopPenalty = 0 ∧
    nodeN.Neighbors "A" = some { Address := "A", Throughput := 100 } ∧
    nodeN.AdjustOGM ogmFirstHop = .ok { ogmFirstHop with Throughput := 100 } := by
  refine ⟨by decide, by decide, ?_⟩
  rfl

/-- C3, evaluated on the code. The edge `edgeSmall` (capacity 10, bucket 3)
satisfies `0 ≤ Bucket ≤ Throughput`; `Tick 2` subtracts `10 / 2 = 5` and leaves
the bucket at -2, so the invariant no longer holds. -/
theorem C3_tick_breaks_invariant :
    edgeSmall.Inv ∧
    edgeSmall.Tick 2 = some { Throughput := 10, Bucket := -2 } ∧
    ¬ Edge.Inv { Throughput := 10, Bucket := -2 } := by
  decide

/-- C4, evaluated on the code. The node `nodeN` holds a route to `A` with the
lower stored sequence 1. The OGM `ogmHigh` (sequence 2) is applied twice: the
second application returns no error instead of the stale-sequence error; the
table is the one the first application left. -/
theorem C4_replay_accepted_again :
    routeA.OgmSequence < ogmHigh.Sequence ∧
    (nodeN.UpdateOriginator ogmHigh).1 = none ∧
    ((nodeN.UpdateOriginator ogmHigh).2.UpdateOriginator ogmHigh).1 = none ∧
    ((nodeN.UpdateOriginator ogmHigh).2.UpdateOriginator ogmHigh).1
      ≠ some "ogm sequence too low" ∧
    ((nodeN.UpdateOriginator ogmHigh).2.UpdateOriginator ogmHigh).2.Originators "A" =
      (nodeN.UpdateOriginator ogmHigh).2.Originators "A" := by
  decide

/-- C5. When the node holds an entry `e` for the OGM's originator and the OGM's
sequence is greater than the stored one, `UpdateOriginator` returns no error; the
entry's next hop afterwards is the OGM's sender with the OGM's throughput if that
throughput is greater than the incumbent's, and is the incumbent otherwise (a tie
keeps the incumbent). -/
theorem C5_next_hop_selection (node : Node) (ogm : OGM) (e : Originator)
    (he : node.Originators ogm.OriginatorAddress = some e)
    (hseq : ogm.Sequence > e.OgmSequence) :
    (node.UpdateOriginator ogm).1 = none ∧
    ∃ e1, (node.UpdateOriginator ogm).2.Originators ogm.OriginatorAddress = some e1 ∧
      (ogm.Throughput > e.NextHop.Throughput →
        e1.NextHop = { Address := ogm.SenderAddress, Throughput := ogm.Throughput }) ∧
      (ogm.Throughput ≤ e.NextHop.Throughput → e1.NextHop = e.NextHop) := by
  by_cases hthr : e.NextHop.Throughput < ogm.Throughput
  · rw [UpdateOriginator_of_better node ogm e he hseq hthr]
    refine ⟨rfl, _, mapSet_same _ _ _, fun _ => rfl, fun hle => ?_⟩
    exact absurd hthr (not_lt.mpr hle)
  · rw [UpdateOriginator_of_not_better node ogm e he hseq hthr]
    exact ⟨rfl, e, he, fun hgt => absurd hgt hthr, fun _ => rfl⟩

/-- C5 at a tie: `nodeN` reaches `A` through `B` with metric 50 and hears an OGM
of sequence 2 from `C` with metric 50. -/
theorem C5_next_hop_selection_witness :
    nodeN.Originators ogmTie.OriginatorAddress = some routeA ∧
    ogmTie.Sequence > routeA.OgmSequence ∧
    (nodeN.UpdateOriginator ogmTie).1 = none ∧
    ∃ e1, (nodeN.UpdateOriginator ogmTie).2.Originators ogmTie.OriginatorAddress
        = some e1 ∧
      (ogmTie.Throughput > routeA.NextHop.Throughput →
        e1.NextHop =
          { Address := ogmTie.SenderAddress, Throughput := ogmTie.Throughput }) ∧
      (ogmTie.Throughput ≤ routeA.NextHop.Throughput → e1.NextHop = routeA.NextHop) :=
  ⟨by decide, by decide, C5_next_hop_selection nodeN ogmTie routeA (by decide) (by decide)⟩

/-- C6. When the node holds no entry for the OGM's originator, `UpdateOriginator`
returns no error, whatever the OGM's throughput and sequence, and the table then
maps the originator's address to an entry with that address, the OGM's sender and
throughput as next hop, and the OGM's sequence. -/
theorem C6_first_ogm_installs (node : Node) (ogm : OGM)
    (h : node.Originators ogm.OriginatorAddress = none) :
    (node.UpdateOriginator ogm).1 = none ∧
    (node.UpdateOriginator ogm).2.Originators ogm.OriginatorAddress =
      some { Address := ogm.OriginatorAddress
             NextHop := { Address := ogm.SenderAddress, Throughput := ogm.Throughput }
             OgmSequence := ogm.Sequence } := by
  rw [UpdateOriginator_of_none node ogm h]
  exact ⟨rfl, mapSet_same _ _ _⟩

/-- C6 for an OGM with negative throughput and negative sequence. -/
theorem C6_first_ogm_installs_witness :
    nodeM.Originators ogmNegative.OriginatorAddress = none ∧
    (nodeM.UpdateOriginator ogmNegative).1 = none ∧
    (nodeM.UpdateOriginator ogmNegative).2.Originators ogmNegative.OriginatorAddress =
      some { Address := ogmNegative.OriginatorAddress
             NextHop := { Address := ogmNegative.SenderAddress
                          Throughput := ogmNegative.Throughput }
             OgmSequence := ogmNegative.Sequence } :=
  ⟨by decide, C6_first_ogm_installs nodeM ogmNegative (by decide)⟩

/-- C7. When the node holds an entry `e` for the OGM's originator and the OGM's
sequence is at most the stored one, `UpdateOriginator` returns the error
"ogm sequence too low" and the node is unchanged; and whenever `UpdateOriginator`
returns an error, it is that error and such an entry exists. -/
theorem C7_stale_sequence (node : Node) (ogm : OGM) :
    (∀ e, node.Originators ogm.OriginatorAddress = some e →
      ogm.Sequence ≤ e.OgmSequence →
      node.UpdateOriginator ogm = (some "ogm sequence too low", node)) ∧
    (∀ msg, (node.UpdateOriginator ogm).1 = some msg →
      msg = "ogm sequence too low" ∧
      (node.UpdateOriginator ogm).2 = node ∧
      ∃ e, node.Originators ogm.OriginatorAddress = some e ∧
        ogm.Sequence ≤ e.OgmSequence) := by
  constructor
  · intro e he hseq
    exact UpdateOriginator_of_stale node ogm e he (not_lt.mpr hseq)
  · intro msg
    cases he : node.Originators ogm.OriginatorAddress with
    | none =>
      rw [UpdateOriginator_of_none node ogm he]
      intro hmsg
      cases hmsg
    | some e =>
      by_cases hseq : ogm.Sequence > e.OgmSequence
      · by_cases hthr : e.NextHop.Throughput < ogm.Throughput
        · rw [UpdateOriginator_of_better node ogm e he hseq hthr]
          intro hmsg
          cases hmsg
        · rw [UpdateOriginator_of_not_better node ogm e he hseq hthr]
          intro hmsg
          cases hmsg
      · rw [UpdateOriginator_of_stale node ogm e he hseq]
        intro hmsg
        exact ⟨(Option.some.inj hmsg).symm, rfl, e, rfl, not_lt.mp hseq⟩

/-- C7 for `nodeN`, whose route to `A` holds sequence 1, and an OGM of `A` with
sequence 1. -/
theorem C7_stale_sequence_witness :
    nodeN.Originators ogmStale.OriginatorAddress = some routeA ∧
    ogmStale.Sequence ≤ routeA.OgmSequence ∧
    nodeN.UpdateOriginator ogmStale = (some "ogm sequence too low", nodeN) :=
  ⟨by decide, by decide, (C7_stale_sequence nodeN ogmStale).1 routeA (by decide) (by decide)⟩

/-! ## The token bucket: `SendBits` and `Tick` -/

/-- C8. On an edge with an empty bucket and a representable capacity, successive
`SendBits` calls with non-negative requests whose sum is at most the capacity all
return true and leave the bucket at the sum. On every edge, a `SendBits` whose sum
`Bucket + n` exceeds the capacity returns false and leaves the bucket equal to the
capacity. The sum is the one the code computes, which is the exact sum whenever
that is representable. -/
theorem C8_admit_monotone :
    (∀ (edge : Edge) (reqs : List Int), edge.Bucket = 0 → IsInt edge.Throughput →
      (∀ n ∈ reqs, 0 ≤ n) → reqs.sum ≤ edge.Throughput →
      (edge.SendBitsSeq reqs).1 = List.replicate reqs.length true ∧
      (edge.SendBitsSeq reqs).2 = { edge with Bucket := reqs.sum }) ∧
    (∀ (edge : Edge) (n : Int), addInt edge.Bucket n > edge.Throughput →
      edge.SendBits n = (false, { edge with Bucket := edge.Throughput })) ∧
    (∀ (edge : Edge) (n : Int), IsInt (edge.Bucket + n) →
      addInt edge.Bucket n = edge.Bucket + n) := by
  refine ⟨?_, ?_, ?_⟩
  · intro edge reqs hb ht hpos hsum
    have h := SendBitsSeq_admits reqs edge (by omega) ht hpos (by omega)
    rw [hb, zero_add] at h
    exact h
  · intro edge n h
    exact SendBits_of_exceeds edge n h
  · intro edge n h
    exact addInt_of_isInt h

/-- C8 on an empty edge of capacity 10 with the requests 3, 4, 3, and on an edge
of capacity 10 holding 3 with the request 8. -/
theorem C8_admit_monotone_witness :
    (edgeFresh.Bucket = 0 ∧ IsInt edgeFresh.Throughput ∧
      (∀ n ∈ [(3 : Int), 4, 3], 0 ≤ n) ∧ [(3 : Int), 4, 3].sum ≤ edgeFresh.Throughput ∧
      (edgeFresh.SendBitsSeq [3, 4, 3]).1 = List.replicate [(3 : Int), 4, 3].length true ∧
      (edgeFresh.SendBitsSeq [3, 4, 3]).2 =
        { edgeFresh with Bucket := [(3 : Int), 4, 3].sum }) ∧
    (addInt edgeSmall.Bucket 8 > edgeSmall.Throughput ∧
      edgeSmall.SendBits 8 = (false, { edgeSmall with Bucket := edgeSmall.Throughput })) :=
  ⟨⟨by decide, by decide, by decide, by decide,
      C8_admit_monotone.1 edgeFresh [3, 4, 3] (by decide) (by decide) (by decide)
        (by decide)⟩,
    ⟨by decide, C8_admit_monotone.2.1 edgeSmall 8 (by decide)⟩⟩

/-- C9, evaluated on the code. The edge `edgeAlmostEmpty` (capacity 100, bucket 1)
satisfies `0 ≤ Bucket ≤ Throughput`; `Tick 10` subtracts `100 / 10 = 10` and leaves
the bucket at -9, whereas `max 0 (1 - 10)` is 0. -/
theorem C9_tick_below_zero :
    edgeAlmostEmpty.Inv ∧
    edgeAlmostEmpty.Tick 10 = some { Throughput := 100, Bucket := -9 } ∧
    max 0 (edgeAlmostEmpty.Bucket - Int.tdiv edgeAlmostEmpty.Throughput 10) = 0 := by
  decide

/-! ## Packet delivery: `SendPacket` -/

/-- C10. When the destination address is registered and the edge from the node to
the destination is registered, `SendPacket` returns no error. If the sum
`Bucket + len(payload)` is at most the edge's capacity, the packet is appended to
the destination's queue and the bucket becomes that sum; otherwise no node changes
and the bucket becomes the capacity. No other node and no other edge changes. The
sum is the one the code computes, which is the exact sum whenever that is
representable. -/
theorem C10_send_packet_admission (net : Network) (node dest : Node) (edge : Edge)
    (destAddress packetType : String) (payload : List Nat)
    (hd : net.Nodes destAddress = some dest)
    (he : net.Edges (node.Address ++ "->" ++ dest.Address) = some edge) :
    ∃ net1, node.SendPacket net destAddress packetType payload = some (none, net1) ∧
      (addInt edge.Bucket payload.length ≤ edge.Throughput →
        net1.Nodes destAddress = some { dest with
          PacketChannel :=
            dest.PacketChannel ++ [{ Type_ := packetType, Payload := payload }] } ∧
        net1.Edges (node.Address ++ "->" ++ dest.Address) =
          some { edge with Bucket := addInt edge.Bucket payload.length }) ∧
      (edge.Throughput < addInt edge.Bucket payload.length →
        net1.Nodes = net.Nodes ∧
        net1.Edges (node.Address ++ "->" ++ dest.Address) =
          some { edge with Bucket := edge.Throughput }) ∧
      (∀ k, k ≠ destAddress → net1.Nodes k = net.Nodes k) ∧
      (∀ k, k ≠ node.Address ++ "->" ++ dest.Address → net1.Edges k = net.Edges k) ∧
      (IsInt (edge.Bucket + payload.length) →
        addInt edge.Bucket payload.length = edge.Bucket + payload.length) := by
  by_cases h : addInt edge.Bucket payload.length ≤ edge.Throughput
  · refine ⟨_, SendPacket_of_admitted net node dest edge destAddress packetType payload
      hd he h, ?_, ?_, ?_, ?_, ?_⟩
    · intro _
      exact ⟨mapSet_same _ _ _, mapSet_same _ _ _⟩
    · intro hlt
      exact absurd h (not_le.mpr hlt)
    · intro k hk
      exact mapSet_other _ _ _ _ hk
    · intro k hk
      exact mapSet_other _ _ _ _ hk
    · intro hrep
      exact addInt_of_isInt hrep
  · have hlt : edge.Throughput < addInt edge.Bucket payload.length := not_le.mp h
    refine ⟨_, SendPacket_of_rejected net node dest edge destAddress packetType payload
      hd he hlt, ?_, ?_, ?_, ?_, ?_⟩
    · intro hle
      exact absurd hle h
    · intro _
      exact ⟨rfl, mapSet_same _ _ _⟩
    · intro k _
      rfl
    · intro k hk
      exact mapSet_other _ _ _ _ hk
    · intro hrep
      exact addInt_of_isInt hrep

/-- C10 for the node `N` sending three bytes to `M` over the edge `N->M` of
capacity 10 with 3 units consumed. -/
theorem C10_send_packet_admission_witness :
    netNM.Nodes "M" = some nodeM ∧
    netNM.Edges (nodeN.Address ++ "->" ++ nodeM.Address) = some edgeSmall ∧
    ∃ net1, nodeN.SendPacket netNM "M" "OGM" [1, 2, 3] = some (none, net1) ∧
      (addInt edgeSmall.Bucket ([1, 2, 3] : List Nat).length ≤ edgeSmall.Throughput →
        net1.Nodes "M" = some { nodeM with
          PacketChannel :=
            nodeM.PacketChannel ++ [{ Type_ := "OGM", Payload := [1, 2, 3] }] } ∧
        net1.Edges (nodeN.Address ++ "->" ++ nodeM.Address) =
          some { edgeSmall with
            Bucket := addInt edgeSmall.Bucket ([1, 2, 3] : List Nat).length }) ∧
      (edgeSmall.Throughput < addInt edgeSmall.Bucket ([1, 2, 3] : List Nat).length →
        net1.Nodes = netNM.Nodes ∧
        net1.Edges (nodeN.Address ++ "->" ++ nodeM.Address) =
          some { edgeSmall with Bucket := edgeSmall.Throughput }) ∧
      (∀ k, k ≠ "M" → net1.Nodes k = netNM.Nodes k) ∧
      (∀ k, k ≠ nodeN.Address ++ "->" ++ nodeM.Address → net1.Edges k = netNM.Edges k) ∧
      (IsInt (edgeSmall.Bucket + ([1, 2, 3] : List Nat).length) →
        addInt edgeSmall.Bucket ([1, 2, 3] : List Nat).length =
          edgeSmall.Bucket + ([1, 2, 3] : List Nat).length) :=
  ⟨rfl, by decide,
    C10_send_packet_admission netNM nodeN nodeM edgeSmall "M" "OGM" [1, 2, 3] rfl
      (by decide)⟩

/-! ## Further branch lemmas -/

/-- The run of `SendPacket` for a destination that is not registered. -/
theorem SendPacket_of_unknown (net : Network) (node : Node)
    (destAddress packetType : String) (payload : List Nat)
    (hd : net.Nodes destAddress = none) :
    node.SendPacket net destAddress packetType payload =
      some (some "destination not found", net) := by
  unfold Node.SendPacket
  rw [hd]

/-- The run of `SendPacket` for a registered destination without registered
edge. -/
theorem SendPacket_of_no_edge (net : Network) (node dest : Node)
    (destAddress packetType : String) (payload : List Nat)
    (hd : net.Nodes destAddress = some dest)
    (he : net.Edges (node.Address ++ "->" ++ dest.Address) = none) :
    node.SendPacket net destAddress packetType payload = none := by
  unfold Node.SendPacket
  rw [hd]
  simp only []
  rw [he]

/-- The run of `AdjustOGM` for an unknown sender. -/
theorem AdjustOGM_of_unknown (node : Node) (ogm : OGM)
    (h : node.Neighbors ogm.SenderAddress = none) :
    node.AdjustOGM ogm = .error "OGM not sent from neighbor" := by
  unfold Node.AdjustOGM
  rw [h]

/-- The run of `AdjustOGM` for an OGM sent by its originator, a neighbor. -/
theorem AdjustOGM_of_first_hop (node : Node) (ogm : OGM) (neighbor : Neighbor)
    (h : node.Neighbors ogm.SenderAddress = some neighbor)
    (hfirst : ogm.OriginatorAddress = ogm.SenderAddress) :
    node.AdjustOGM ogm = .ok { ogm with
      Throughput :=
        subInt neighbor.Throughput (mulInt neighbor.Throughput hopPenalty) } := by
  unfold Node.AdjustOGM
  rw [h]
  simp only [hfirst, if_true]

/-- The run of `AdjustOGM` for an OGM relayed by a neighbor. -/
theorem AdjustOGM_of_relayed (node : Node) (ogm : OGM) (neighbor : Neighbor)
    (h : node.Neighbors ogm.SenderAddress = some neighbor)
    (hrelayed : ogm.OriginatorAddress ≠ ogm.SenderAddress) :
    node.AdjustOGM ogm = .ok { ogm with
      Throughput :=
        subInt (min ogm.Throughput neighbor.Throughput)
          (mulInt (min ogm.Throughput neighbor.Throughput) hopPenalty) } := by
  unfold Node.AdjustOGM
  rw [h]
  by_cases hlt : neighbor.Throughput < ogm.Throughput
  · have hmin : min ogm.Throughput neighbor.Throughput = neighbor.Throughput :=
      min_eq_right (le_of_lt hlt)
    simp only [hrelayed, hlt, if_true, if_false, hmin]
  · have hmin : min ogm.Throughput neighbor.Throughput = ogm.Throughput :=
      min_eq_left (not_lt.mp hlt)
    simp only [hrelayed, hlt, if_false, hmin]

/-! ## Packet delivery: failed lookups -/

/-- C11. When the destination address is absent from `Network.Nodes`,
`SendPacket` returns the error "destination not found" and the network (every
edge, every node with its queue and tables) is unchanged. -/
theorem C11_unknown_destination (net : Network) (node : Node)
    (destAddress packetType : String) (payload : List Nat)
    (hd : net.Nodes destAddress = none) :
    node.SendPacket net destAddress packetType payload =
      some (some "destination not found", net) :=
  SendPacket_of_unknown net node destAddress packetType payload hd

/-- C11 for the node `N` sending to the unregistered address `X`. -/
theorem C11_unknown_destination_witness :
    netNM.Nodes "X" = none ∧
    nodeN.SendPacket netNM "X" "OGM" [1, 2, 3] =
      some (some "destination not found", netNM) :=
  ⟨rfl, C11_unknown_destination netNM nodeN "X" "OGM" [1, 2, 3] rfl⟩

/-- C12, evaluated on the code. In `netNM` the node `N` is registered and the
edge `M->N` is not; `SendPacket` from `M` to `N` does not return the error
"edge not found" but panics on the nil edge. -/
theorem C12_missing_edge_panics :
    (netNM.Nodes "N").map Node.Address = some "N" ∧
    netNM.Edges (nodeM.Address ++ "->" ++ "N") = none ∧
    nodeM.SendPacket netNM "N" "OGM" [1, 2, 3] = none ∧
    nodeM.SendPacket netNM "N" "OGM" [1, 2, 3] ≠ some (some "edge not found", netNM) := by
  refine ⟨by decide, by decide, ?_, ?_⟩
  · exact SendPacket_of_no_edge netNM nodeM nodeN "N" "OGM" [1, 2, 3] rfl (by decide)
  · rw [SendPacket_of_no_edge netNM nodeM nodeN "N" "OGM" [1, 2, 3] rfl (by decide)]
    exact fun h => Option.noConfusion h

/-! ## Metric adjustment: `AdjustOGM` -/

/-- C16. The call `AdjustOGM` returns the error "OGM not sent from neighbor" (and
no OGM) exactly when the OGM's sender has no entry in `Neighbors`; when the sender
has an entry it returns an adjusted OGM and no error. -/
theorem C16_unknown_sender (node : Node) (ogm : OGM) :
    (node.AdjustOGM ogm = .error "OGM not sent from neighbor" ↔
      node.Neighbors ogm.SenderAddress = none) ∧
    (∀ msg, node.AdjustOGM ogm = .error msg → msg = "OGM not sent from neighbor") ∧
    (∀ neighbor, node.Neighbors ogm.SenderAddress = some neighbor →
      ∃ adjusted, node.AdjustOGM ogm = .ok adjusted) := by
  cases h : node.Neighbors ogm.SenderAddress with
  | none =>
    rw [AdjustOGM_of_unknown node ogm h]
    refine ⟨⟨fun _ => rfl, fun _ => rfl⟩, ?_, ?_⟩
    · intro msg hmsg
      exact (Except.error.inj hmsg).symm
    · intro neighbor hn
      cases hn
  | some neighbor =>
    by_cases hfirst : ogm.OriginatorAddress = ogm.SenderAddress
    · rw [AdjustOGM_of_first_hop node ogm neighbor h hfirst]
      refine ⟨⟨fun he => (by cases he), fun hn => (by cases hn)⟩, ?_, ?_⟩
      · intro msg hmsg
        cases hmsg
      · intro _ _
        exact ⟨_, rfl⟩
    · rw [AdjustOGM_of_relayed node ogm neighbor h hfirst]
      refine ⟨⟨fun he => (by cases he), fun hn => (by cases hn)⟩, ?_, ?_⟩
      · intro msg hmsg
        cases hmsg
      · intro _ _
        exact ⟨_, rfl⟩

/-- C16 for the node `C`, which has the neighbor `B` and not the neighbor `A`. -/
theorem C16_unknown_sender_witness :
    nodeC.Neighbors (ogmOfA 100 0).SenderAddress = none ∧
    nodeC.AdjustOGM (ogmOfA 100 0) = .error "OGM not sent from neighbor" ∧
    nodeB.Neighbors (ogmOfA 100 0).SenderAddress = some { Address := "A", Throughput := 100 } ∧
    ∃ adjusted, nodeB.AdjustOGM (ogmOfA 100 0) = .ok adjusted :=
  ⟨by decide, (C16_unknown_sender nodeC (ogmOfA 100 0)).1.mpr (by decide), by decide,
    (C16_unknown_sender nodeB (ogmOfA 100 0)).2.2 { Address := "A", Throughput := 100 }
      (by decide)⟩

/-- C17. For an OGM whose sender is a neighbor of link throughput `t` (all
values being Go integers; `t ≥ 0` is not needed), `AdjustOGM` returns a throughput
that is at most `t`;
when the OGM was sent by its originator the returned throughput is the same for
every carried throughput; when it was relayed and carries `c ≥ 0` the returned
throughput is at most `min c t`. -/
theorem C17_reset_and_bottleneck (node : Node) (ogm : OGM) (neighbor : Neighbor)
    (h : node.Neighbors ogm.SenderAddress = some neighbor)
    (ht : IsInt neighbor.Throughput) (hc : IsInt ogm.Throughput) :
    ∃ adjusted, node.AdjustOGM ogm = .ok adjusted ∧
      adjusted.Throughput ≤ neighbor.Throughput ∧
      (ogm.OriginatorAddress = ogm.SenderAddress →
        ∀ carried, ∃ adjusted1,
          node.AdjustOGM { ogm with Throughput := carried } = .ok adjusted1 ∧
          adjusted1.Throughput = adjusted.Throughput) ∧
      (ogm.OriginatorAddress ≠ ogm.SenderAddress → 0 ≤ ogm.Throughput →
        adjusted.Throughput ≤ min ogm.Throughput neighbor.Throughput) := by
  by_cases hfirst : ogm.OriginatorAddress = ogm.SenderAddress
  · refine ⟨_, AdjustOGM_of_first_hop node ogm neighbor h hfirst, ?_, ?_, ?_⟩
    · show subInt neighbor.Throughput (mulInt neighbor.Throughput hopPenalty) ≤ _
      rw [penalty_step_id ht]
    · intro _ carried
      exact ⟨_, AdjustOGM_of_first_hop node { ogm with Throughput := carried } neighbor
        h hfirst, rfl⟩
    · intro hne
      exact absurd hfirst hne
  · have hm : IsInt (min ogm.Throughput neighbor.Throughput) := by
      unfold IsInt at *
      exact ⟨le_min hc.1 ht.1, le_trans (min_le_left _ _) hc.2⟩
    refine ⟨_, AdjustOGM_of_relayed node ogm neighbor h hfirst, ?_, ?_, ?_⟩
    · show subInt (min ogm.Throughput neighbor.Throughput) _ ≤ _
      rw [penalty_step_id hm]
      exact min_le_right _ _
    · intro heq
      exact absurd heq hfirst
    · intro _ _
      show subInt (min ogm.Throughput neighbor.Throughput) _ ≤ _
      rw [penalty_step_id hm]

/-- C17 for the node `B` and the OGM of `A` sent by `A` with carried metric 7. -/
theorem C17_reset_and_bottleneck_witness :
    nodeB.Neighbors (ogmOfA 7 0).SenderAddress = some { Address := "A", Throughput := 100 } ∧
    ∃ adjusted, nodeB.AdjustOGM (ogmOfA 7 0) = .ok adjusted ∧
      adjusted.Throughput ≤ 100 ∧
      ((ogmOfA 7 0).OriginatorAddress = (ogmOfA 7 0).SenderAddress →
        ∀ carried, ∃ adjusted1,
          nodeB.AdjustOGM { ogmOfA 7 0 with Throughput := carried } = .ok adjusted1 ∧
          adjusted1.Throughput = adjusted.Throughput) ∧
      ((ogmOfA 7 0).OriginatorAddress ≠ (ogmOfA 7 0).SenderAddress →
        0 ≤ (ogmOfA 7 0).Throughput →
        adjusted.Throughput ≤ min (ogmOfA 7 0).Throughput 100) :=
  ⟨by decide,
    C17_reset_and_bottleneck nodeB (ogmOfA 7 0) { Address := "A", Throughput := 100 }
      (by decide) (by decide) (by decide)⟩

/-! ## Facts about the fan-out loop -/

/-- With both lookups successful `SendPacket` returns no error. -/
theorem SendPacket_of_reachable (net : Network) (node dest : Node) (edge : Edge)
    (destAddress packetType : String) (payload : List Nat)
    (hd : net.Nodes destAddress = some dest)
    (he : net.Edges (node.Address ++ "->" ++ dest.Address) = some edge) :
    ∃ net1, node.SendPacket net destAddress packetType payload = some (none, net1) := by
  by_cases h : addInt edge.Bucket payload.length ≤ edge.Throughput
  · exact ⟨_, SendPacket_of_admitted net node dest edge destAddress packetType payload
      hd he h⟩
  · exact ⟨_, SendPacket_of_rejected net node dest edge destAddress packetType payload
      hd he (not_le.mp h)⟩

theorem SameShape_refl (net : Network) : net.SameShape net :=
  ⟨fun _ => rfl, fun _ => rfl⟩

theorem SameShape_trans {a b c : Network} (hab : a.SameShape b) (hbc : b.SameShape c) :
    a.SameShape c :=
  ⟨fun k => (hbc.1 k).trans (hab.1 k), fun k => (hbc.2 k).trans (hab.2 k)⟩

/-- A call of `SendPacket` that returns keeps the registered addresses and the
registered edge keys. -/
theorem SendPacket_sameShape (net net1 : Network) (node : Node)
    (destAddress packetType : String) (payload : List Nat) (r : Option String)
    (h : node.SendPacket net destAddress packetType payload = some (r, net1)) :
    net.SameShape net1 := by
  cases hd : net.Nodes destAddress with
  | none =>
    rw [SendPacket_of_unknown net node destAddress packetType payload hd] at h
    simp only [Option.some.injEq, Prod.mk.injEq] at h
    rw [← h.2]
    exact SameShape_refl net
  | some dest =>
    cases he : net.Edges (node.Address ++ "->" ++ dest.Address) with
    | none =>
      rw [SendPacket_of_no_edge net node dest destAddress packetType payload hd he] at h
      cases h
    | some edge =>
      by_cases hfit : addInt edge.Bucket payload.length ≤ edge.Throughput
      · rw [SendPacket_of_admitted net node dest edge destAddress packetType payload
          hd he hfit] at h
        simp only [Option.some.injEq, Prod.mk.injEq] at h
        rw [← h.2]
        constructor
        · intro k
          by_cases hk : k = destAddress
          · simp [mapSet, hk, hd, Node.ReceivePacket]
          · simp [mapSet, hk]
        · intro k
          by_cases hk : k = node.Address ++ "->" ++ dest.Address
          · simp [mapSet, hk, he]
          · simp [mapSet, hk]
      · rw [SendPacket_of_rejected net node dest edge destAddress packetType payload
          hd he (not_le.mp hfit)] at h
        simp only [Option.some.injEq, Prod.mk.injEq] at h
        rw [← h.2]
        constructor
        · intro k
          rfl
        · intro k
          by_cases hk : k = node.Address ++ "->" ++ dest.Address
          · simp [mapSet, hk, he]
          · simp [mapSet, hk]

theorem Reaches_of_sameShape {net net1 : Network} (node : Node) (key : String)
    (hs : net.SameShape net1) (h : node.Reaches net key) : node.Reaches net1 key := by
  obtain ⟨neighbor, dest, edge, hn, hd, he⟩ := h
  have h1 := hs.1 neighbor.Address
  rw [hd] at h1
  have h2 := hs.2 (node.Address ++ "->" ++ dest.Address)
  rw [he] at h2
  cases hd1 : net1.Nodes neighbor.Address with
  | none =>
    rw [hd1] at h1
    cases h1
  | some dest1 =>
    rw [hd1] at h1
    have haddr : dest1.Address = dest.Address := by
      simpa using h1
    cases he1 : net1.Edges (node.Address ++ "->" ++ dest.Address) with
    | none =>
      rw [he1] at h2
      cases h2
    | some edge1 =>
      refine ⟨neighbor, dest1, edge1, hn, hd1, ?_⟩
      rw [haddr]
      exact he1

theorem absent_of_sameShape {net net1 : Network} (k : String)
    (hs : net.SameShape net1) (h : net.Nodes k = none) : net1.Nodes k = none := by
  have h1 := hs.1 k
  rw [h] at h1
  cases hd1 : net1.Nodes k with
  | none => rfl
  | some dest1 =>
    rw [hd1] at h1
    cases h1

/-- One round of the loop whose `SendPacket` returns no error. -/
theorem sendToNeighbors_cons_ok (node : Node) (payload : List Nat) (net net1 : Network)
    (key : String) (rest : List String) (neighbor : Neighbor)
    (hn : node.Neighbors key = some neighbor)
    (hs : node.SendPacket net neighbor.Address "OGM" payload = some (none, net1)) :
    node.sendToNeighbors payload net (key :: rest) =
      match node.sendToNeighbors payload net1 rest with
      | none => none
      | some (err, net2, calls) =>
        some (err, net2,
          { DestAddress := neighbor.Address, PacketType := "OGM", Payload := payload }
            :: calls) := by
  rw [Node.sendToNeighbors]
  simp only [hn, hs]

/-- One round of the loop whose `SendPacket` returns an error. -/
theorem sendToNeighbors_cons_err (node : Node) (payload : List Nat) (net net1 : Network)
    (key : String) (rest : List String) (neighbor : Neighbor) (err : String)
    (hn : node.Neighbors key = some neighbor)
    (hs : node.SendPacket net neighbor.Address "OGM" payload = some (some err, net1)) :
    node.sendToNeighbors payload net (key :: rest) =
      some (some err, net1,
        [{ DestAddress := neighbor.Address, PacketType := "OGM", Payload := payload }]) := by
  rw [Node.sendToNeighbors]
  simp only [hn, hs]

theorem callsFor_cons (node : Node) (payload : List Nat) (key : String)
    (rest : List String) (neighbor : Neighbor) (hn : node.Neighbors key = some neighbor) :
    node.callsFor payload (key :: rest) =
      { DestAddress := neighbor.Address, PacketType := "OGM", Payload := payload }
        :: node.callsFor payload rest := by
  simp [Node.callsFor, hn]

/-- When every visited neighbor is registered with an edge, the loop calls
`SendPacket` once per visited key and returns no error. -/
theorem sendToNeighbors_all (node : Node) (payload : List Nat) :
    ∀ (keys : List String) (net : Network), (∀ k ∈ keys, node.Reaches net k) →
      ∃ net1, node.sendToNeighbors payload net keys =
          some (none, net1, node.callsFor payload keys) ∧ net.SameShape net1 := by
  intro keys
  induction keys with
  | nil =>
    intro net _
    exact ⟨net, by simp [Node.sendToNeighbors, Node.callsFor], SameShape_refl net⟩
  | cons key rest ih =>
    intro net hall
    obtain ⟨neighbor, dest, edge, hn, hd, he⟩ := hall key (List.mem_cons_self key rest)
    obtain ⟨net1, hs⟩ :=
      SendPacket_of_reachable net node dest edge neighbor.Address "OGM" payload hd he
    have hshape := SendPacket_sameShape net net1 node neighbor.Address "OGM" payload none hs
    obtain ⟨net2, hrest, hshape2⟩ := ih net1 (fun k hk =>
      Reaches_of_sameShape node k hshape (hall k (List.mem_cons_of_mem key hk)))
    refine ⟨net2, ?_, SameShape_trans hshape hshape2⟩
    rw [sendToNeighbors_cons_ok node payload net net1 key rest neighbor hn hs, hrest,
      callsFor_cons node payload key rest neighbor hn]

/-- The loop stops at the first neighbor that is not registered: the neighbors
visited before it are addressed, those after it are not. -/
theorem sendToNeighbors_stops (node : Node) (payload : List Nat) (x : String)
    (neighbor : Neighbor) (post : List String)
    (hx : node.Neighbors x = some neighbor) :
    ∀ (pre : List String) (net : Network), (∀ k ∈ pre, node.Reaches net k) →
      net.Nodes neighbor.Address = none →
      ∃ net1, node.sendToNeighbors payload net pre =
          some (none, net1, node.callsFor payload pre) ∧
        node.sendToNeighbors payload net (pre ++ x :: post) =
          some (some "destination not found", net1,
            node.callsFor payload pre ++
              [{ DestAddress := neighbor.Address, PacketType := "OGM"
                 Payload := payload }]) := by
  intro pre
  induction pre with
  | nil =>
    intro net _ habsent
    refine ⟨net, by simp [Node.sendToNeighbors, Node.callsFor], ?_⟩
    have hs := SendPacket_of_unknown net node neighbor.Address "OGM" payload habsent
    rw [List.nil_append,
      sendToNeighbors_cons_err node payload net net x post neighbor _ hx hs]
    simp [Node.callsFor]
  | cons key rest ih =>
    intro net hall habsent
    obtain ⟨nb, dest, edge, hn, hd, he⟩ := hall key (List.mem_cons_self key rest)
    obtain ⟨net1, hs⟩ :=
      SendPacket_of_reachable net node dest edge nb.Address "OGM" payload hd he
    have hshape := SendPacket_sameShape net net1 node nb.Address "OGM" payload none hs
    obtain ⟨net2, hpre, hstop⟩ := ih net1 (fun k hk =>
      Reaches_of_sameShape node k hshape (hall k (List.mem_cons_of_mem key hk)))
      (absent_of_sameShape neighbor.Address hshape habsent)
    refine ⟨net2, ?_, ?_⟩
    · rw [sendToNeighbors_cons_ok node payload net net1 key rest nb hn hs, hpre,
        callsFor_cons node payload key rest nb hn]
    · rw [List.cons_append,
        sendToNeighbors_cons_ok node payload net net1 key (rest ++ x :: post) nb hn hs,
        hstop, callsFor_cons node payload key rest nb hn]
      rfl

/-- The decoding step of `HandleOGM` fails for every payload, and `HandleOGM`
returns its error without touching the node or the network. -/
theorem HandleOGM_decode_error (syntaxError : List Nat → Option String)
    (marshal : OGM → Except String (List Nat)) (net : Network) (node : Node)
    (keys : List String) (payload : List Nat) :
    ∃ err, node.HandleOGM syntaxError marshal net keys payload =
      some (some err, node, net, []) := by
  unfold Node.HandleOGM unmarshalIntoValue
  cases syntaxError payload with
  | none => exact ⟨_, rfl⟩
  | some msg => exact ⟨_, rfl⟩

/-! ## Handling a received OGM: `HandleOGM` -/

/-- C13. For a payload that encodes an OGM whose originator is the node itself,
`HandleOGM` leaves the node (route table, neighbors, sequence counter) and the
network (every edge bucket, every queue) unchanged and calls `SendPacket` not
once. The decoding step already returns, so the same holds for every payload. -/
theorem C13_self_origin_echo (syntaxError : List Nat → Option String)
    (marshal : OGM → Except String (List Nat)) (net : Network) (node : Node)
    (keys : List String) (ogm : OGM) (payload : List Nat)
    (henc : marshal ogm = .ok payload)
    (hself : ogm.OriginatorAddress = node.Address) :
    ∃ result, node.HandleOGM syntaxError marshal net keys payload =
      some (result, node, net, []) := by
  obtain ⟨err, h⟩ := HandleOGM_decode_error syntaxError marshal net node keys payload
  exact ⟨some err, h⟩

/-- C13 for the node `B` receiving the encoding of an OGM that `B` originated. -/
theorem C13_self_origin_echo_witness :
    marshalPlain ogmEcho = .ok (payloadOf ogmEcho) ∧
    ogmEcho.OriginatorAddress = nodeB.Address ∧
    ∃ result, nodeB.HandleOGM noSyntaxError marshalPlain netABC ["A", "C"]
        (payloadOf ogmEcho) = some (result, nodeB, netABC, []) :=
  ⟨rfl, by decide,
    C13_self_origin_echo noSyntaxError marshalPlain netABC nodeB ["A", "C"] ogmEcho
      (payloadOf ogmEcho) rfl (by decide)⟩

/-- C14, evaluated on the code. The node `B` of the line A - B - C has no route
to `A`, has `A` as a neighbor and both its neighbors registered with edges; for
the encoding of the OGM that `A` originates, `HandleOGM` returns the error of
`json.Unmarshal` on a non-pointer target, installs no route and sends nothing. -/
theorem C14_decoding_always_fails :
    (ogmOfA 100 0).OriginatorAddress ≠ nodeB.Address ∧
    nodeB.Neighbors (ogmOfA 100 0).SenderAddress =
      some { Address := "A", Throughput := 100 } ∧
    nodeB.Originators "A" = none ∧
    nodeB.HandleOGM noSyntaxError marshalPlain netABC ["A", "C"]
        (payloadOf (ogmOfA 100 0)) =
      some (some "json: Unmarshal(non-pointer main.OGM)", nodeB, netABC, []) := by
  refine ⟨by decide, by decide, by decide, ?_⟩
  rfl

/-! ## End to end on the line A - B - C -/

/-- C15. On the line with link throughputs 100 (A - B) and 80 (B - C) and empty
route tables, for the OGM that `A` originates at sequence 1 (whatever metric and
timestamp it carries): `B` adjusts it and installs the route to `A` through `A`;
`C` adjusts the adjusted OGM with the sender rewritten to `B` and installs the
route to `A` through `B`, with a metric that is at most the minimum of the metric
of `B` and 80 and strictly less than the metric of `B`. -/
theorem C15_line_topology (carried stamp : Int) :
    ∃ adjustedB routeB adjustedC routeC,
      nodeB.AdjustOGM (ogmOfA carried stamp) = .ok adjustedB ∧
      (nodeB.UpdateOriginator adjustedB).1 = none ∧
      (nodeB.UpdateOriginator adjustedB).2.Originators "A" = some routeB ∧
      routeB.NextHop.Address = "A" ∧
      nodeC.AdjustOGM { adjustedB with SenderAddress := nodeB.Address } = .ok adjustedC ∧
      (nodeC.UpdateOriginator adjustedC).1 = none ∧
      (nodeC.UpdateOriginator adjustedC).2.Originators "A" = some routeC ∧
      routeC.NextHop.Address = "B" ∧
      routeC.NextHop.Throughput ≤ min routeB.NextHop.Throughput 80 ∧
      routeC.NextHop.Throughput < routeB.NextHop.Throughput := by
  refine ⟨{ ogmOfA carried stamp with Throughput := 100 },
    { Address := "A", NextHop := { Address := "A", Throughput := 100 }, OgmSequence := 1 },
    { ogmOfA carried stamp with SenderAddress := "B", Throughput := 80 },
    { Address := "A", NextHop := { Address := "B", Throughput := 80 }, OgmSequence := 1 },
    ?_, ?_, ?_, ?_, ?_, ?_, ?_, ?_, ?_, ?_⟩
  · rw [AdjustOGM_of_first_hop nodeB (ogmOfA carried stamp)
      { Address := "A", Throughput := 100 } rfl rfl]
    rfl
  · rfl
  · rfl
  · rfl
  · have hne : ("A" : String) ≠ "B" := by decide
    rw [AdjustOGM_of_relayed nodeC
      { ({ ogmOfA carried stamp with Throughput := 100 } : OGM) with
        SenderAddress := nodeB.Address }
      { Address := "B", Throughput := 80 } rfl hne]
    rfl
  · rfl
  · rfl
  · rfl
  · decide
  · decide

/-! ## Flooding: `RebroadcastOGM` -/

/-- C18 fails as stated. The node `B` has the neighbors `A`, registered with the
edge `B->A` of spare capacity, and `C`, absent from the registry `netAB`. When
`range` visits `C` first, `RebroadcastOGM` returns "destination not found" after
the single call for `C`: the queue of `A` stays empty and the edge `B->A` is
untouched. -/
theorem C18_fanout_aborts_counterexample :
    nodeB.Neighbors "A" = some { Address := "A", Throughput := 100 } ∧
    nodeB.Neighbors "C" = some { Address := "C", Throughput := 80 } ∧
    netAB.Nodes "C" = none ∧
    (netAB.Nodes "A").map Node.Address = some "A" ∧
    netAB.Edges "B->A" = some edgeWide ∧
    ∃ net1 calls,
      nodeB.RebroadcastOGM marshalPlain netAB (ogmOfA 100 0) ["C", "A"] =
        some (some "destination not found", net1, calls) ∧
      calls.map SendCall.DestAddress = ["C"] ∧
      (net1.Nodes "A").map Node.PacketChannel = some [] ∧
      net1.Edges "B->A" = some edgeWide := by
  refine ⟨by decide, by decide, rfl, by decide, by decide, netAB,
    [{ DestAddress := "C", PacketType := "OGM"
       Payload := payloadOf { ogmOfA 100 0 with SenderAddress := "B" } }], rfl, ?_, ?_, ?_⟩
  · rfl
  · decide
  · decide

/-- Strings with a common beginning are equal only if their ends are. -/
theorem string_append_left_cancel (p a b : String) (h : p ++ a = p ++ b) : a = b := by
  have h1 := congrArg String.data h
  simp only [String.data_append] at h1
  exact String.ext (List.append_cancel_left h1)

/-- Different destinations have different edge keys. -/
theorem edgeKey_ne (node : Node) (a b : String) (h : a ≠ b) :
    node.Address ++ "->" ++ a ≠ node.Address ++ "->" ++ b :=
  fun heq => h (string_append_left_cancel (node.Address ++ "->") a b heq)

/-- One admitted `SendPacket` to a neighbor registered under its own address:
what it leaves in the network. -/
theorem SendPacket_delivers (net : Network) (node dest : Node) (edge : Edge)
    (address : String) (payload : List Nat)
    (hd : net.Nodes address = some dest) (haddr : dest.Address = address)
    (he : net.Edges (node.Address ++ "->" ++ address) = some edge)
    (hfit : addInt edge.Bucket payload.length ≤ edge.Throughput) :
    ∃ net1, node.SendPacket net address "OGM" payload = some (none, net1) ∧
      net1.Nodes address = some { dest with
        PacketChannel := dest.PacketChannel ++ [{ Type_ := "OGM", Payload := payload }] } ∧
      net1.Edges (node.Address ++ "->" ++ address) =
        some { edge with Bucket := addInt edge.Bucket payload.length } ∧
      (∀ a, a ≠ address → net1.Nodes a = net.Nodes a) ∧
      (∀ e, e ≠ node.Address ++ "->" ++ address → net1.Edges e = net.Edges e) := by
  have he1 : net.Edges (node.Address ++ "->" ++ dest.Address) = some edge := by
    rw [haddr]
    exact he
  refine ⟨_, SendPacket_of_admitted net node dest edge address "OGM" payload hd he1 hfit,
    mapSet_same _ _ _, ?_, fun a ha => mapSet_other _ _ _ _ ha, ?_⟩
  · show mapSet net.Edges (node.Address ++ "->" ++ dest.Address) _ _ = _
    rw [haddr]
    exact mapSet_same _ _ _
  · intro e hne
    show mapSet net.Edges (node.Address ++ "->" ++ dest.Address) _ _ = _
    rw [haddr]
    exact mapSet_other _ _ _ _ hne

/-- A run of the loop that returns no error has made the recorded calls, one after
the other, on the network. -/
theorem replay_of_sendToNeighbors (node : Node) (payload : List Nat) :
    ∀ (keys : List String) (net net1 : Network) (calls : List SendCall),
      node.sendToNeighbors payload net keys = some (none, net1, calls) →
      node.replay net calls = some net1 := by
  intro keys
  induction keys with
  | nil =>
    intro net net1 calls h
    simp only [Node.sendToNeighbors, Option.some.injEq, Prod.mk.injEq, true_and] at h
    rw [← h.1, ← h.2]
    rfl
  | cons key rest ih =>
    intro net net1 calls h
    rw [Node.sendToNeighbors] at h
    cases hn : node.Neighbors key with
    | none =>
      simp only [hn] at h
      cases h
    | some neighbor =>
      simp only [hn] at h
      cases hs : node.SendPacket net neighbor.Address "OGM" payload with
      | none =>
        simp only [hs] at h
        cases h
      | some r =>
        obtain ⟨err, net2⟩ := r
        cases err with
        | some msg =>
          simp only [hs] at h
          cases h
        | none =>
          simp only [hs] at h
          cases hr : node.sendToNeighbors payload net2 rest with
          | none =>
            simp only [hr] at h
            cases h
          | some r2 =>
            obtain ⟨err2, net3, calls2⟩ := r2
            simp only [hr, Option.some.injEq, Prod.mk.injEq] at h
            obtain ⟨herr, hnet, hcalls⟩ := h
            subst herr
            subst hnet
            subst hcalls
            rw [Node.replay]
            simp only [hs]
            exact ih net2 net3 calls2 hr

/-- The loop over `pre ++ rest` continues, after a run over `pre` without error,
with the run over `rest`. -/
theorem sendToNeighbors_append (node : Node) (payload : List Nat) (rest : List String) :
    ∀ (pre : List String) (net net1 : Network) (calls : List SendCall),
      node.sendToNeighbors payload net pre = some (none, net1, calls) →
      node.sendToNeighbors payload net (pre ++ rest) =
        match node.sendToNeighbors payload net1 rest with
        | none => none
        | some (err, net2, calls2) => some (err, net2, calls ++ calls2) := by
  intro pre
  induction pre with
  | nil =>
    intro net net1 calls h
    simp only [Node.sendToNeighbors, Option.some.injEq, Prod.mk.injEq, true_and] at h
    rw [← h.1, ← h.2, List.nil_append]
    cases node.sendToNeighbors payload net rest with
    | none => rfl
    | some r => rfl
  | cons key more ih =>
    intro net net1 calls h
    rw [Node.sendToNeighbors] at h
    rw [List.cons_append, Node.sendToNeighbors]
    cases hn : node.Neighbors key with
    | none =>
      simp only [hn] at h
      cases h
    | some neighbor =>
      simp only [hn] at h ⊢
      cases hs : node.SendPacket net neighbor.Address "OGM" payload with
      | none =>
        simp only [hs] at h
        cases h
      | some r =>
        obtain ⟨err, net2⟩ := r
        cases err with
        | some msg =>
          simp only [hs] at h
          cases h
        | none =>
          simp only [hs] at h ⊢
          cases hr : node.sendToNeighbors payload net2 more with
          | none =>
            simp only [hr] at h
            cases h
          | some r2 =>
            obtain ⟨err2, net3, calls2⟩ := r2
            simp only [hr, Option.some.injEq, Prod.mk.injEq] at h
            obtain ⟨herr, hnet, hcalls⟩ := h
            subst herr
            subst hnet
            subst hcalls
            rw [ih net2 net3 calls2 hr]
            cases node.sendToNeighbors payload net3 rest with
            | none => rfl
            | some r3 => rfl

/-- When every visited neighbor is registered under its own address, its edge has
room for the payload and the neighbors are pairwise different, the loop returns no
error, every visited neighbor has the packet appended to its queue and its edge
charged with the payload, and nothing else in the network changes. -/
theorem sendToNeighbors_delivers (node : Node) (payload : List Nat) :
    ∀ (keys : List String) (net : Network),
      (∀ k ∈ keys, node.CanDeliver net payload k) → node.DistinctNeighbors keys →
      ∃ net1, node.sendToNeighbors payload net keys =
          some (none, net1, node.callsFor payload keys) ∧
        (∀ k ∈ keys, ∀ neighbor dest edge, node.Neighbors k = some neighbor →
          net.Nodes neighbor.Address = some dest →
          net.Edges (node.Address ++ "->" ++ neighbor.Address) = some edge →
          net1.Nodes neighbor.Address = some { dest with
            PacketChannel :=
              dest.PacketChannel ++ [{ Type_ := "OGM", Payload := payload }] } ∧
          net1.Edges (node.Address ++ "->" ++ neighbor.Address) =
            some { edge with Bucket := addInt edge.Bucket payload.length }) ∧
        (∀ a, (∀ k ∈ keys, ∀ neighbor, node.Neighbors k = some neighbor →
            neighbor.Address ≠ a) → net1.Nodes a = net.Nodes a) ∧
        (∀ e, (∀ k ∈ keys, ∀ neighbor, node.Neighbors k = some neighbor →
            node.Address ++ "->" ++ neighbor.Address ≠ e) →
          net1.Edges e = net.Edges e) := by
  intro keys
  induction keys with
  | nil =>
    intro net _ _
    refine ⟨net, by simp [Node.sendToNeighbors, Node.callsFor], ?_, fun _ _ => rfl,
      fun _ _ => rfl⟩
    intro k hk
    cases hk
  | cons key rest ih =>
    intro net hcan hdist
    obtain ⟨nb, dest, edge, hn, hd, haddr, he, hfit⟩ :=
      hcan key (List.mem_cons_self key rest)
    obtain ⟨hhead, htail⟩ := List.pairwise_cons.mp hdist
    obtain ⟨net1, hs, hnode1, hedge1, hnodes1, hedges1⟩ :=
      SendPacket_delivers net node dest edge nb.Address payload hd haddr he hfit
    have hother : ∀ k ∈ rest, ∀ nb1, node.Neighbors k = some nb1 →
        nb1.Address ≠ nb.Address :=
      fun k hk nb1 hn1 => Ne.symm (hhead k hk nb nb1 hn hn1)
    have hcan1 : ∀ k ∈ rest, node.CanDeliver net1 payload k := by
      intro k hk
      obtain ⟨nb1, dest1, edge1, hn1, hd1, haddr1, he1, hfit1⟩ :=
        hcan k (List.mem_cons_of_mem key hk)
      have hne := hother k hk nb1 hn1
      refine ⟨nb1, dest1, edge1, hn1, ?_, haddr1, ?_, hfit1⟩
      · rw [hnodes1 _ hne]
        exact hd1
      · rw [hedges1 _ (edgeKey_ne node _ _ hne)]
        exact he1
    obtain ⟨net2, hrest, heff, hnodes2, hedges2⟩ := ih net1 hcan1 htail
    refine ⟨net2, ?_, ?_, ?_, ?_⟩
    · rw [sendToNeighbors_cons_ok node payload net net1 key rest nb hn hs, hrest,
        callsFor_cons node payload key rest nb hn]
    · intro k hk nb0 dest0 edge0 hn0 hd0 he0
      rcases List.mem_cons.mp hk with hkey | hmem
      · subst hkey
        rw [hn] at hn0
        cases hn0
        rw [hd] at hd0
        cases hd0
        rw [he] at he0
        cases he0
        refine ⟨?_, ?_⟩
        · rw [hnodes2 _ (fun k1 hk1 nb1 hn1 => hother k1 hk1 nb1 hn1)]
          exact hnode1
        · rw [hedges2 _ (fun k1 hk1 nb1 hn1 =>
            edgeKey_ne node _ _ (hother k1 hk1 nb1 hn1))]
          exact hedge1
      · have hne := hother k hmem nb0 hn0
        refine heff k hmem nb0 dest0 edge0 hn0 ?_ ?_
        · rw [hnodes1 _ hne]
          exact hd0
        · rw [hedges1 _ (edgeKey_ne node _ _ hne)]
          exact he0
    · intro a ha
      rw [hnodes2 a (fun k hk nb1 hn1 => ha k (List.mem_cons_of_mem key hk) nb1 hn1)]
      exact hnodes1 a (Ne.symm (ha key (List.mem_cons_self key rest) nb hn))
    · intro e he0
      rw [hedges2 e (fun k hk nb1 hn1 => he0 k (List.mem_cons_of_mem key hk) nb1 hn1)]
      exact hedges1 e (Ne.symm (he0 key (List.mem_cons_self key rest) nb hn))

/-- A neighbor that can be delivered to is reachable. -/
theorem Reaches_of_canDeliver (node : Node) (net : Network) (payload : List Nat)
    (key : String) (h : node.CanDeliver net payload key) : node.Reaches net key := by
  obtain ⟨nb, dest, edge, hn, hd, haddr, he, _⟩ := h
  refine ⟨nb, dest, edge, hn, hd, ?_⟩
  rw [haddr]
  exact he

/-- C18 as amended. When the neighbors that `range` visits before `x` are
registered, pairwise different and have edges with room for the payload, and the
neighbor stored under `x` is absent from the registry, `RebroadcastOGM` returns
"destination not found" after one `SendPacket` call for each neighbor before `x`
and one for `x`. Every neighbor visited before `x` has the OGM packet appended to
its inbound queue and its edge charged with the payload; every other node and
every other edge, those of the neighbors visited after `x` included, is
unchanged. -/
theorem C18_fanout_until_first_failure (marshal : OGM → Except String (List Nat))
    (net : Network) (node : Node) (ogm : OGM) (payload : List Nat)
    (pre post : List String) (x : String) (neighbor : Neighbor)
    (henc : marshal { ogm with SenderAddress := node.Address } = .ok payload)
    (hpre : ∀ k ∈ pre, node.CanDeliver net payload k)
    (hdist : node.DistinctNeighbors pre)
    (hx : node.Neighbors x = some neighbor)
    (habsent : net.Nodes neighbor.Address = none) :
    ∃ net1 calls,
      node.RebroadcastOGM marshal net ogm (pre ++ x :: post) =
        some (some "destination not found", net1, calls) ∧
      calls = node.callsFor payload pre ++
        [{ DestAddress := neighbor.Address, PacketType := "OGM", Payload := payload }] ∧
      (∀ k ∈ pre, ∀ nb dest edge, node.Neighbors k = some nb →
        net.Nodes nb.Address = some dest →
        net.Edges (node.Address ++ "->" ++ nb.Address) = some edge →
        net1.Nodes nb.Address = some { dest with
          PacketChannel :=
            dest.PacketChannel ++ [{ Type_ := "OGM", Payload := payload }] } ∧
        net1.Edges (node.Address ++ "->" ++ nb.Address) =
          some { edge with Bucket := addInt edge.Bucket payload.length }) ∧
      (∀ a, (∀ k ∈ pre, ∀ nb, node.Neighbors k = some nb → nb.Address ≠ a) →
        net1.Nodes a = net.Nodes a) ∧
      (∀ e, (∀ k ∈ pre, ∀ nb, node.Neighbors k = some nb →
          node.Address ++ "->" ++ nb.Address ≠ e) →
        net1.Edges e = net.Edges e) := by
  obtain ⟨net1, hrun, heff, hnodes, hedges⟩ :=
    sendToNeighbors_delivers node payload pre net hpre hdist
  have hfresh : ∀ k ∈ pre, ∀ nb, node.Neighbors k = some nb →
      nb.Address ≠ neighbor.Address := by
    intro k hk nb hn heq
    obtain ⟨nb1, dest, _, hn1, hd, _, _, _⟩ := hpre k hk
    rw [hn] at hn1
    cases hn1
    rw [heq, habsent] at hd
    cases hd
  have habsent1 : net1.Nodes neighbor.Address = none := by
    rw [hnodes neighbor.Address hfresh]
    exact habsent
  have hstop := sendToNeighbors_cons_err node payload net1 net1 x post neighbor _ hx
    (SendPacket_of_unknown net1 node neighbor.Address "OGM" payload habsent1)
  have hall := sendToNeighbors_append node payload (x :: post) pre net net1 _ hrun
  rw [hstop] at hall
  refine ⟨net1, _, ?_, rfl, heff, hnodes, hedges⟩
  unfold Node.RebroadcastOGM
  simp only [henc]
  exact hall

/-- C18 as amended, for the node `H` whose neighbors are visited in the order
`A`, `X`, `C`, with `X` not registered: `A` receives the packet, `C` does not. -/
theorem C18_fanout_until_first_failure_witness :
    marshalPlain { ogmOfA 100 0 with SenderAddress := nodeHub.Address } =
      .ok (payloadOf { ogmOfA 100 0 with SenderAddress := "H" }) ∧
    (∀ k ∈ ["A"], nodeHub.CanDeliver netHub
      (payloadOf { ogmOfA 100 0 with SenderAddress := "H" }) k) ∧
    nodeHub.DistinctNeighbors ["A"] ∧
    nodeHub.Neighbors "X" = some { Address := "X", Throughput := 60 } ∧
    netHub.Nodes "X" = none ∧
    ∃ net1 calls,
      nodeHub.RebroadcastOGM marshalPlain netHub (ogmOfA 100 0) (["A"] ++ "X" :: ["C"]) =
        some (some "destination not found", net1, calls) ∧
      calls.map SendCall.DestAddress = ["A", "X"] ∧
      (net1.Nodes "A").map Node.PacketChannel =
        some [{ Type_ := "OGM"
                Payload := payloadOf { ogmOfA 100 0 with SenderAddress := "H" } }] ∧
      net1.Edges "H->A" = some { Throughput := 1000, Bucket := 89 } ∧
      (net1.Nodes "C").map Node.PacketChannel = some [] ∧
      net1.Edges "H->C" = some edgeWide := by
  have hA : nodeHub.Neighbors "A" = some { Address := "A", Throughput := 100 } := by
    decide
  have hcan : ∀ k ∈ ["A"], nodeHub.CanDeliver netHub
      (payloadOf { ogmOfA 100 0 with SenderAddress := "H" }) k := by
    intro k hk
    rw [List.mem_singleton] at hk
    subst hk
    exact ⟨{ Address := "A", Throughput := 100 }, nodeA, edgeWide, hA, rfl, rfl,
      by decide, by decide⟩
  have hdist : nodeHub.DistinctNeighbors ["A"] := List.pairwise_singleton _ _
  obtain ⟨net1, calls, hrun, hcalls, heff, hnodes, hedges⟩ :=
    C18_fanout_until_first_failure marshalPlain netHub nodeHub (ogmOfA 100 0)
      (payloadOf { ogmOfA 100 0 with SenderAddress := "H" }) ["A"] ["C"] "X"
      { Address := "X", Throughput := 60 } rfl hcan hdist (by decide) rfl
  obtain ⟨hqueue, hbucket⟩ := heff "A" (List.mem_singleton.mpr rfl)
    { Address := "A", Throughput := 100 } nodeA edgeWide hA rfl (by decide)
  have hnotC : ∀ k ∈ ["A"], ∀ nb, nodeHub.Neighbors k = some nb → nb.Address ≠ "C" := by
    intro k hk nb hn
    rw [List.mem_singleton] at hk
    subst hk
    rw [hA] at hn
    cases hn
    decide
  have hnotEdge : ∀ k ∈ ["A"], ∀ nb, nodeHub.Neighbors k = some nb →
      nodeHub.Address ++ "->" ++ nb.Address ≠ "H->C" := by
    intro k hk nb hn
    rw [List.mem_singleton] at hk
    subst hk
    rw [hA] at hn
    cases hn
    decide
  refine ⟨rfl, hcan, hdist, by decide, rfl, net1, calls, hrun, ?_, ?_, ?_, ?_, ?_⟩
  · rw [hcalls]
    rfl
  · rw [hqueue]
    rfl
  · rw [show ("H->A" : String) = nodeHub.Address ++ "->" ++ "A" by decide, hbucket]
    decide
  · rw [hnodes "C" hnotC]
    rfl
  · rw [hedges "H->C" hnotEdge]
    decide

/-- C19. When every neighbor of the node is registered in the network with an
edge from the node, `RebroadcastOGM` returns no error and calls `SendPacket`
exactly once per entry of `Neighbors` in visiting order, none left out; every call
has type "OGM" and carries the same payload, the serialization of the OGM with
`SenderAddress` replaced by the address of the node and the other fields
unchanged. The network afterwards is the one these calls leave when made one
after the other; in particular, when the neighbors are registered under their own
pairwise different addresses and their edges have room, each neighbor has the
packet appended to its queue, its edge is charged with the payload, and nothing
else changes. -/
theorem C19_flood_to_every_neighbor (marshal : OGM → Except String (List Nat))
    (net : Network) (node : Node) (ogm : OGM) (payload : List Nat) (keys : List String)
    (henc : marshal
      { Sequence := ogm.Sequence, OriginatorAddress := ogm.OriginatorAddress
        SenderAddress := node.Address, Throughput := ogm.Throughput
        Timestamp := ogm.Timestamp } = .ok payload)
    (hall : ∀ k ∈ keys, node.Reaches net k) :
    ∃ net1 calls,
      node.RebroadcastOGM marshal net ogm keys = some (none, net1, calls) ∧
      calls.length = keys.length ∧
      calls.map (fun call => some call.DestAddress) =
        keys.map (fun k => (node.Neighbors k).map Neighbor.Address) ∧
      (∀ call ∈ calls, call.PacketType = "OGM" ∧ call.Payload = payload) ∧
      node.replay net calls = some net1 ∧
      ((∀ k ∈ keys, node.CanDeliver net payload k) → node.DistinctNeighbors keys →
        (∀ k ∈ keys, ∀ nb dest edge, node.Neighbors k = some nb →
          net.Nodes nb.Address = some dest →
          net.Edges (node.Address ++ "->" ++ nb.Address) = some edge →
          net1.Nodes nb.Address = some { dest with
            PacketChannel :=
              dest.PacketChannel ++ [{ Type_ := "OGM", Payload := payload }] } ∧
          net1.Edges (node.Address ++ "->" ++ nb.Address) =
            some { edge with Bucket := addInt edge.Bucket payload.length }) ∧
        (∀ a, (∀ k ∈ keys, ∀ nb, node.Neighbors k = some nb → nb.Address ≠ a) →
          net1.Nodes a = net.Nodes a) ∧
        (∀ e, (∀ k ∈ keys, ∀ nb, node.Neighbors k = some nb →
            node.Address ++ "->" ++ nb.Address ≠ e) →
          net1.Edges e = net.Edges e)) := by
  obtain ⟨net1, hrun, _⟩ := sendToNeighbors_all node payload keys net hall
  have hcalls : ∀ ks : List String, (∀ k ∈ ks, node.Reaches net k) →
      (node.callsFor payload ks).length = ks.length ∧
      (node.callsFor payload ks).map (fun call => some call.DestAddress) =
        ks.map (fun k => (node.Neighbors k).map Neighbor.Address) ∧
      ∀ call ∈ node.callsFor payload ks,
        call.PacketType = "OGM" ∧ call.Payload = payload := by
    intro ks
    induction ks with
    | nil =>
      intro _
      simp [Node.callsFor]
    | cons key rest ih =>
      intro hks
      obtain ⟨neighbor, _, _, hn, _, _⟩ := hks key (List.mem_cons_self key rest)
      obtain ⟨h1, h2, h3⟩ := ih (fun k hk => hks k (List.mem_cons_of_mem key hk))
      rw [callsFor_cons node payload key rest neighbor hn]
      refine ⟨by simp [h1], by simp [h2, hn], ?_⟩
      intro call hcall
      rcases List.mem_cons.mp hcall with hc | hc
      · rw [hc]
        exact ⟨rfl, rfl⟩
      · exact h3 call hc
  obtain ⟨hlen, hdest, hsame⟩ := hcalls keys hall
  refine ⟨net1, node.callsFor payload keys, ?_, hlen, hdest, hsame,
    replay_of_sendToNeighbors node payload keys net net1 _ hrun, ?_⟩
  · unfold Node.RebroadcastOGM
    simp only [henc]
    exact hrun
  · intro hcan hdist
    obtain ⟨net2, hrun2, heff, hnodes, hedges⟩ :=
      sendToNeighbors_delivers node payload keys net hcan hdist
    rw [hrun] at hrun2
    simp only [Option.some.injEq, Prod.mk.injEq, true_and, and_true] at hrun2
    rw [hrun2]
    exact ⟨heff, hnodes, hedges⟩

/-- C19 for the node `B` of the line, which floods the OGM heard from `A` to `A`
and to `C`: both receive the packet and both edges are charged with its 89
bytes. -/
theorem C19_flood_to_every_neighbor_witness :
    marshalPlain
      { Sequence := (ogmOfA 100 0).Sequence
        OriginatorAddress := (ogmOfA 100 0).OriginatorAddress
        SenderAddress := nodeB.Address, Throughput := (ogmOfA 100 0).Throughput
        Timestamp := (ogmOfA 100 0).Timestamp } =
      .ok (payloadOf { ogmOfA 100 0 with SenderAddress := "B" }) ∧
    (∀ k ∈ ["A", "C"], nodeB.Reaches netABC k) ∧
    ∃ net1 calls,
      nodeB.RebroadcastOGM marshalPlain netABC (ogmOfA 100 0) ["A", "C"] =
        some (none, net1, calls) ∧
      calls.map SendCall.DestAddress = ["A", "C"] ∧
      (∀ call ∈ calls, call.PacketType = "OGM" ∧
        call.Payload = payloadOf { ogmOfA 100 0 with SenderAddress := "B" }) ∧
      (net1.Nodes "A").map Node.PacketChannel =
        some [{ Type_ := "OGM"
                Payload := payloadOf { ogmOfA 100 0 with SenderAddress := "B" } }] ∧
      (net1.Nodes "C").map Node.PacketChannel =
        some [{ Type_ := "OGM"
                Payload := payloadOf { ogmOfA 100 0 with SenderAddress := "B" } }] ∧
      net1.Edges "B->A" = some { Throughput := 1000, Bucket := 89 } ∧
      net1.Edges "B->C" = some { Throughput := 1000, Bucket := 89 } ∧
      (net1.Nodes "B").map Node.PacketChannel = some [] := by
  have hA : nodeB.Neighbors "A" = some { Address := "A", Throughput := 100 } := by decide
  have hC : nodeB.Neighbors "C" = some { Address := "C", Throughput := 80 } := by decide
  have hcan : ∀ k ∈ ["A", "C"], nodeB.CanDeliver netABC
      (payloadOf { ogmOfA 100 0 with SenderAddress := "B" }) k := by
    intro k hk
    rcases List.mem_cons.mp hk with h | h
    · subst h
      exact ⟨{ Address := "A", Throughput := 100 }, nodeA, edgeWide, hA, rfl, rfl,
        by decide, by decide⟩
    · rw [List.mem_singleton] at h
      subst h
      exact ⟨{ Address := "C", Throughput := 80 }, nodeC, edgeWide, hC, rfl, rfl,
        by decide, by decide⟩
  have hreach : ∀ k ∈ ["A", "C"], nodeB.Reaches netABC k :=
    fun k hk => Reaches_of_canDeliver nodeB netABC _ k (hcan k hk)
  have hdist : nodeB.DistinctNeighbors ["A", "C"] := by
    unfold Node.DistinctNeighbors
    refine List.pairwise_cons.mpr ⟨?_, List.pairwise_singleton _ _⟩
    intro k hk nb nb1 hn hn1
    rw [List.mem_singleton] at hk
    subst hk
    rw [hA] at hn
    rw [hC] at hn1
    cases hn
    cases hn1
    decide
  obtain ⟨net1, calls, hrun, _, hdest, hsame, _, hdel⟩ :=
    C19_flood_to_every_neighbor marshalPlain netABC nodeB (ogmOfA 100 0)
      (payloadOf { ogmOfA 100 0 with SenderAddress := "B" }) ["A", "C"] rfl hreach
  obtain ⟨heff, hnodes, _⟩ := hdel hcan hdist
  obtain ⟨hqA, hbA⟩ := heff "A" (by decide) { Address := "A", Throughput := 100 }
    nodeA edgeWide hA rfl (by decide)
  obtain ⟨hqC, hbC⟩ := heff "C" (by decide) { Address := "C", Throughput := 80 }
    nodeC edgeWide hC rfl (by decide)
  have hnotB : ∀ k ∈ ["A", "C"], ∀ nb, nodeB.Neighbors k = some nb → nb.Address ≠ "B" := by
    intro k hk nb hn
    rcases List.mem_cons.mp hk with h | h
    · subst h
      rw [hA] at hn
      cases hn
      decide
    · rw [List.mem_singleton] at h
      subst h
      rw [hC] at hn
      cases hn
      decide
  have hd : calls.map SendCall.DestAddress = ["A", "C"] := by
    have h1 : (calls.map (fun call => some call.DestAddress)).map
        (fun o => o.getD "") = calls.map SendCall.DestAddress := by
      rw [List.map_map]
      rfl
    rw [← h1, hdest]
    decide
  refine ⟨rfl, hreach, net1, calls, hrun, hd, hsame, ?_, ?_, ?_, ?_, ?_⟩
  · rw [hqA]
    rfl
  · rw [hqC]
    rfl
  · rw [show ("B->A" : String) = nodeB.Address ++ "->" ++ "A" by decide, hbA]
    decide
  · rw [show ("B->C" : String) = nodeB.Address ++ "->" ++ "C" by decide, hbC]
    decide
  · rw [hnodes "B" hnotB]
    rfl

/-! ## Monotonicity of the route table -/

/-- C20. After `UpdateOriginator`, whether it returns an error or not, every
address that had an entry still has one, with a next-hop throughput that is at
least the previous one and with the same `Address` field; every entry under a key
other than the originator of the OGM is unchanged; and if every entry had its key
as `Address` before, every entry, a created one included, has it afterwards. -/
theorem C20_routes_kept (node : Node) (ogm : OGM) :
    (∀ k e, node.Originators k = some e →
      ∃ e1, (node.UpdateOriginator ogm).2.Originators k = some e1 ∧
        e.NextHop.Throughput ≤ e1.NextHop.Throughput ∧ e1.Address = e.Address) ∧
    (∀ k, k ≠ ogm.OriginatorAddress →
      (node.UpdateOriginator ogm).2.Originators k = node.Originators k) ∧
    ((∀ k e, node.Originators k = some e → e.Address = k) →
      ∀ k e, (node.UpdateOriginator ogm).2.Originators k = some e → e.Address = k) := by
  cases he : node.Originators ogm.OriginatorAddress with
  | none =>
    rw [UpdateOriginator_of_none node ogm he]
    refine ⟨?_, ?_, ?_⟩
    · intro k e hk
      have hne : k ≠ ogm.OriginatorAddress := by
        intro heq
        rw [heq, he] at hk
        cases hk
      exact ⟨e, by rw [← hk]; exact mapSet_other _ _ _ _ hne, le_refl _, rfl⟩
    · intro k hne
      exact mapSet_other _ _ _ _ hne
    · intro hwf k e hk
      by_cases hkey : k = ogm.OriginatorAddress
      · subst hkey
        simp only [mapSet_same, Option.some.injEq] at hk
        rw [← hk]
      · simp only [mapSet_other _ _ _ _ hkey] at hk
        exact hwf k e hk
  | some e0 =>
    by_cases hseq : ogm.Sequence > e0.OgmSequence
    · by_cases hthr : e0.NextHop.Throughput < ogm.Throughput
      · rw [UpdateOriginator_of_better node ogm e0 he hseq hthr]
        refine ⟨?_, ?_, ?_⟩
        · intro k e hk
          by_cases hkey : k = ogm.OriginatorAddress
          · subst hkey
            rw [he] at hk
            cases hk
            exact ⟨_, mapSet_same _ _ _, le_of_lt hthr, rfl⟩
          · exact ⟨e, by rw [← hk]; exact mapSet_other _ _ _ _ hkey, le_refl _, rfl⟩
        · intro k hne
          exact mapSet_other _ _ _ _ hne
        · intro hwf k e hk
          by_cases hkey : k = ogm.OriginatorAddress
          · subst hkey
            simp only [mapSet_same, Option.some.injEq] at hk
            rw [← hk]
            exact hwf _ e0 he
          · simp only [mapSet_other _ _ _ _ hkey] at hk
            exact hwf k e hk
      · rw [UpdateOriginator_of_not_better node ogm e0 he hseq hthr]
        exact ⟨fun k e hk => ⟨e, hk, le_refl _, rfl⟩, fun _ _ => rfl, fun hwf => hwf⟩
    · rw [UpdateOriginator_of_stale node ogm e0 he hseq]
      exact ⟨fun k e hk => ⟨e, hk, le_refl _, rfl⟩, fun _ _ => rfl, fun hwf => hwf⟩

/-- C20 for the node `N`, whose route to `A` has metric 50, and an OGM of `A` with
metric 70. -/
theorem C20_routes_kept_witness :
    nodeN.Originators "A" = some routeA ∧
    ∃ e1, (nodeN.UpdateOriginator ogmHigh).2.Originators "A" = some e1 ∧
      routeA.NextHop.Throughput ≤ e1.NextHop.Throughput ∧ e1.Address = routeA.Address :=
  ⟨by decide, (C20_routes_kept nodeN ogmHigh).1 "A" routeA (by decide)⟩

end BatmanSim
